import Mathlib

/-!
Verification development for the devfiler profiling data sink.

Shallow embedding of the storage layer (typed RocksDB facade), the key
encodings, the metrics merge operator, the interval tree, the OTLP ingestion
pipeline and the frame symbolization dispatch, together with theorems that
settle the specification claims against the code.

Machine integers are modelled as `Nat`/`Int` with explicit wrapping or
clamping where the Rust code can overflow; byte strings are `List Nat`
with every entry `< 256`.
-/

-- ==================== Definitions ====================

-- ---------- Byte-level encodings (storage/table.rs TableKey contract) ----------

/-- Big-endian byte encoding of a `u64` (`u64::to_be_bytes`). -/
def u64be (n : Nat) : List Nat :=
  [n / 2 ^ 56 % 256, n / 2 ^ 48 % 256, n / 2 ^ 40 % 256, n / 2 ^ 32 % 256,
   n / 2 ^ 24 % 256, n / 2 ^ 16 % 256, n / 2 ^ 8 % 256, n % 256]

/-- Little-endian byte encoding of a `u64` (`u64::to_le_bytes`). -/
def u64le (n : Nat) : List Nat :=
  [n % 256, n / 2 ^ 8 % 256, n / 2 ^ 16 % 256, n / 2 ^ 24 % 256,
   n / 2 ^ 32 % 256, n / 2 ^ 40 % 256, n / 2 ^ 48 % 256, n / 2 ^ 56 % 256]

/-- Little-endian byte encoding of a `u128` (`u128::to_le_bytes`). -/
def u128le (n : Nat) : List Nat :=
  [n % 256, n / 2 ^ 8 % 256, n / 2 ^ 16 % 256, n / 2 ^ 24 % 256,
   n / 2 ^ 32 % 256, n / 2 ^ 40 % 256, n / 2 ^ 48 % 256, n / 2 ^ 56 % 256,
   n / 2 ^ 64 % 256, n / 2 ^ 72 % 256, n / 2 ^ 80 % 256, n / 2 ^ 88 % 256,
   n / 2 ^ 96 % 256, n / 2 ^ 104 % 256, n / 2 ^ 112 % 256, n / 2 ^ 120 % 256]

/-- Big-endian byte encoding of a `u128` (`u128::to_be_bytes`). -/
def u128be (n : Nat) : List Nat :=
  [n / 2 ^ 120 % 256, n / 2 ^ 112 % 256, n / 2 ^ 104 % 256, n / 2 ^ 96 % 256,
   n / 2 ^ 88 % 256, n / 2 ^ 80 % 256, n / 2 ^ 72 % 256, n / 2 ^ 64 % 256,
   n / 2 ^ 56 % 256, n / 2 ^ 48 % 256, n / 2 ^ 40 % 256, n / 2 ^ 32 % 256,
   n / 2 ^ 24 % 256, n / 2 ^ 16 % 256, n / 2 ^ 8 % 256, n % 256]

/-- Value of a big-endian byte string. -/
def beVal (bs : List Nat) : Nat := bs.foldl (fun a b => a * 256 + b) 0

/-- Lexicographic `≤` on byte strings: the comparison RocksDB performs on raw
keys, and also the comparison `[u8; N]::cmp` performs on encoded keys. -/
def lexLeB : List Nat → List Nat → Bool
  | [], _ => true
  | _ :: _, [] => false
  | a :: as, b :: bs => if a < b then true else if b < a then false else lexLeB as bs

-- ---------- Table keys (storage/dbtypes.rs, tables/*.rs) ----------

/-- 128-bit executable identity (`symblib::fileid::FileId`), viewed as its
`u128` numeric value. -/
abbrev FileId := Nat

/-- `impl TableKey for FileId` (storage/dbtypes.rs): `u128::to_le_bytes`. -/
def fileIdIntoRaw (f : FileId) : List Nat := u128le f

/-- `FileId::from_parts(hi, lo)`: two `u64` halves, `hi` in the top bits. -/
def fileIdFromParts (hi lo : Nat) : FileId := hi * 2 ^ 64 + lo

/-- `FrameId` (storage/tables/stackframes.rs): `(FileId, VirtAddr)`. -/
structure FrameId where
  file_id : FileId
  addr_or_line : Nat
  deriving DecidableEq, Repr

/-- `impl TableKey for FrameId`: `FileId::into_raw()` bytes followed by
the address in big-endian. -/
def frameIdIntoRaw (k : FrameId) : List Nat :=
  fileIdIntoRaw k.file_id ++ u64be k.addr_or_line

/-- `impl_ord_from_table_key!(FrameId)`: `FrameId`'s order is defined as the
(lexicographic) comparison of the `into_raw` byte arrays. -/
def frameIdLe (a b : FrameId) : Bool := lexLeB (frameIdIntoRaw a) (frameIdIntoRaw b)

/-- `TraceCountId` (storage/tables/traceevents.rs): `(timestamp, id)`. -/
structure TraceCountId where
  timestamp : Nat
  id : Nat
  deriving DecidableEq, Repr

/-- `impl TableKey for TraceCountId`: timestamp big-endian, id little-endian
— 16 bytes in total. -/
def traceCountIdIntoRaw (k : TraceCountId) : List Nat :=
  u64be k.timestamp ++ u64le k.id

/-- `TraceCountId::from_raw`: first 8 bytes big-endian timestamp, next 8
bytes little-endian id. -/
def traceCountIdFromRaw (bs : List Nat) : TraceCountId :=
  { timestamp := beVal (bs.take 8)
    id := beVal ((bs.drop 8).take 8).reverse }

/-- `MetricKey` (storage/tables/metrics.rs): `(timestamp, metric_id)`. -/
structure MetricKey where
  timestamp : Nat
  metric_id : Nat
  deriving DecidableEq, Repr

-- ---------- Metrics merge operator (storage/tables/metrics.rs) ----------

/-- `MetricKind` (storage/metricspec.rs). -/
inductive MetricKind where
  | counter
  | gauge
  deriving DecidableEq, Repr

/-- `i64::saturating_add`: the sum clamped to the `i64` range. -/
def saturatingAdd (a b : Int) : Int :=
  max (min (a + b) (2 ^ 63 - 1)) (-(2 ^ 63))

/-- The `metrics` table merge operator (storage/tables/metrics.rs `merge`),
parameterized over the metric spec registry (`metric_spec_by_id`, which is
populated from the embedded `metrics.json`). `values` is the iterator of
accumulated un-merged operand values, oldest first (RocksDB's operand
order), and `prev` the fully merged previous value if any. -/
def metricsMerge (specById : Nat → Option MetricKind) (key : MetricKey)
    (prev : Option Int) (values : List Int) : Option Int :=
  match specById key.metric_id with
  | none => values.head?
  | some kind =>
    let init := prev.getD 0
    some (match kind with
      | .counter => values.foldl saturatingAdd init
      | .gauge => values.foldl max init)

-- ---------- Timestamp normalization (collector/otlp/service.rs) ----------

/-- Timestamp normalization in `process_sample`: values above
`1704063600 * 1_000_000_000` (2024/01/01 in nanoseconds) are treated as
nanoseconds, anything else as milliseconds. -/
def normalizeTimestamp (ts : Nat) : Nat :=
  if ts > 1704063600 * 1000000000 then ts / 1000000000 else ts / 1000

-- ---------- Change watcher (storage/notify.rs) ----------

/-- `Db::NUM_TABLES`. -/
def dbNumTables : Nat := 5

/-- `UpdateWatcher::default()`: the per-table previous sequence numbers all
start at zero. -/
def freshWatcherSeqs : List Nat := List.replicate dbNumTables 0

/-- `UpdateWatcher::any_changes`: walk the tables' current `last_seq()`
values zipped against the stored previous ones, or-ing up inequality and
replacing each stored entry with the current value. Returns the flag and
the updated watcher state. -/
def anyChanges (prev cur : List Nat) : Bool × List Nat :=
  (cur.zip prev).foldl
    (fun acc x => (acc.1 || !(x.2 == x.1), acc.2 ++ [x.1]))
    (false, [])

-- ---------- Frame kinds (storage/tables/stacktraces.rs) ----------

/-- `InterpKind` with its stable `1..12` encoding (see `InterpKind::from_raw`). -/
inductive InterpKind where
  | python
  | php
  | native
  | kernel
  | jvm
  | ruby
  | perl
  | js
  | phpJit
  | dotNet
  | beam
  | go
  deriving DecidableEq, Repr

/-- `InterpKind::from_raw`. -/
def interpKindFromRaw (raw : Nat) : Option InterpKind :=
  match raw with
  | 1 => some .python
  | 2 => some .php
  | 3 => some .native
  | 4 => some .kernel
  | 5 => some .jvm
  | 6 => some .ruby
  | 7 => some .perl
  | 8 => some .js
  | 9 => some .phpJit
  | 10 => some .dotNet
  | 11 => some .beam
  | 12 => some .go
  | _ => none

/-- `FrameKind` (storage/tables/stacktraces.rs). -/
inductive FrameKind where
  | regular (interp : InterpKind)
  | error (interp : InterpKind)
  | abort
  | unknown (raw : Nat)
  | unknownError (raw : Nat)
  deriving DecidableEq, Repr

/-- `FrameKind::interp()`. -/
def FrameKind.interpOf : FrameKind → Option InterpKind
  | .regular x => some x
  | .error x => some x
  | _ => none

/-- `SampleKind` (storage/tables/traceevents.rs). -/
inductive SampleKind where
  | unknown
  | mixed
  | onCPU
  | offCPU
  deriving DecidableEq, Repr

/-- `Frame` (storage/tables/stacktraces.rs): frame list entry. -/
structure Frame where
  id : FrameId
  kind : FrameKind
  deriving DecidableEq, Repr

/-- `FrameMetaData` (storage/tables/stackframes.rs). -/
structure FrameMetaData where
  file_name : Option String
  function_name : Option String
  line_number : Nat
  function_offset : Nat
  deriving DecidableEq, Repr

/-- `SymbStatus` (storage/tables/executables.rs). -/
inductive SymbStatus where
  | notAttempted
  | tempError (last_attempt : Nat)
  | notPresentGlobally
  | complete (num_symbols : Nat)
  deriving DecidableEq, Repr

/-- `ExecutableMeta` (storage/tables/executables.rs). -/
structure ExecutableMeta where
  build_id : Option String
  file_name : Option String
  symb_status : SymbStatus
  deriving DecidableEq, Repr

/-- `TraceCount` (storage/tables/traceevents.rs): the `trace_events` value.
The sample `kind` is one of its fields. `TraceHash` is represented by its
`u128` value. -/
structure TraceCount where
  timestamp : Nat
  trace_hash : Nat
  count : Nat
  comm : String
  pod_name : Option String
  container_name : Option String
  kind : SampleKind
  deriving DecidableEq, Repr

-- ---------- Typed table facade (storage/table.rs) ----------

/-- A table's configured merge behavior (`MergeOperator`): the default
RocksDB replace semantics, or a custom associative merge function. -/
inductive MergeOpKind where
  | default
  | associative
  deriving DecidableEq, Repr

/-- `StackFrames` is declared by `new_table!(StackFrames: FrameId =>
FrameMetaData)` without a `MERGE_OP` override, so it uses the default
(replacing) write behavior. -/
def stackFramesMergeOp : MergeOpKind := .default

/-- `Metrics` declares `MERGE_OP = MergeOperator::Associative(merge)`. -/
def metricsMergeOp : MergeOpKind := .associative

/-- A table modelled as an association list, newest binding first. -/
abbrev Tbl (K V : Type) : Type := List (K × V)

/-- `Table::get`: the visible value for a key (the newest binding). -/
def tblLookup {K V : Type} [DecidableEq K] (t : Tbl K V) (k : K) : Option V :=
  (t.find? (fun x => decide (x.1 = k))).map (fun x => x.2)

/-- A single keyed write with replace semantics (`rocksdb::DB::put` or a
batched `WriteBatch::put`): the new binding shadows any previous one. -/
def tblInsert {K V : Type} (t : Tbl K V) (k : K) (v : V) : Tbl K V :=
  (k, v) :: t

/-- `InsertionBatch::commit` for a table whose merge operator is the default
one: the batch's `put`s are applied atomically, in insertion order. -/
def commitBatch {K V : Type} (ops : List (K × V)) (t : Tbl K V) : Tbl K V :=
  ops.foldl (fun acc op => tblInsert acc op.1 op.2) t

-- ---------- FileId construction (symblib::fileid, outside src/) ----------

/-- Numeric value of a hex digit character. -/
def hexDigitVal (c : Char) : Option Nat :=
  if '0' ≤ c ∧ c ≤ '9' then some (c.toNat - 48)
  else if 'a' ≤ c ∧ c ≤ 'f' then some (c.toNat - 87)
  else if 'A' ≤ c ∧ c ≤ 'F' then some (c.toNat - 55)
  else none

/-- Value of a list of hex digit characters, `none` if any is not hex. -/
def hexValList (cs : List Char) : Option Nat :=
  cs.foldl
    (fun acc c => match acc, hexDigitVal c with
      | some a, some d => some (a * 16 + d)
      | _, _ => none)
    (some 0)

/-- Value of a string of hex digits, `none` if any character is not hex. -/
def hexVal (s : String) : Option Nat := hexValList s.data

/-- Split a character list at every occurrence of a separator character
(the semantics of splitting a string on `"-"`). -/
def splitAtChar (c : Char) : List Char → List (List Char)
  | [] => [[]]
  | x :: xs =>
    if x = c then [] :: splitAtChar c xs
    else
      match splitAtChar c xs with
      | [] => [[x]]
      | g :: gs => (x :: g) :: gs

/-- Modelled from the spec: `FileId::try_parse_hex` (symblib is not under
src/) parses the hex form of the 128-bit executable identity; it accepts up
to 32 hex digits (ingestion feeds it 16-digit synthesized build ids). -/
def tryParseHex (s : String) : Option FileId :=
  if s.length = 0 ∨ s.length > 32 then none else hexVal s

/-- Modelled from the spec: `FileId::try_parse_es` (symblib is not under
src/) parses the hyphenated 16-byte "ES form": two hyphen-separated halves
of 16 hex digits each. -/
def tryParseEs (s : String) : Option FileId :=
  match splitAtChar '-' s.data with
  | [a, b] =>
    if a.length = 16 ∧ b.length = 16 then
      match hexValList a, hexValList b with
      | some hi, some lo => some (fileIdFromParts hi lo)
      | _, _ => none
    else none
  | _ => none

/-- Lower-case hex digit character. -/
def hexChar (n : Nat) : Char :=
  if n < 10 then Char.ofNat (48 + n) else Char.ofNat (87 + n)

/-- `format!("{:016x}", n)`: 16 lower-case hex digits, zero padded. -/
def toHex16 (n : Nat) : String :=
  String.mk ((List.range 16).map (fun i => hexChar (n / 16 ^ (15 - i) % 16)))

-- ---------- Hash stand-ins (xxhash_rust::xxh3, outside src/) ----------

/-- Byte view of a string, as fed to the hasher. -/
def strBytes (s : String) : List Nat := s.data.map Char.toNat

/-- Modelled from the spec: the 64-bit xxh3 digest of a sequence of update
chunks (xxhash_rust is an external crate); a deterministic stand-in mixer. -/
def xxh3Digest64 (chunks : List (List Nat)) : Nat :=
  chunks.flatten.foldl
    (fun a b => (a * 6364136223846793005 + b + 1442695040888963407) % 2 ^ 64)
    (chunks.length % 2 ^ 64)

/-- Modelled from the spec: the 128-bit xxh3 digest of a byte sequence
(`digest128`); a deterministic stand-in mixer. -/
def xxh3Digest128 (bytes : List Nat) : Nat :=
  bytes.foldl
    (fun a b => (a * 25096281518912105342191652917306643963 + b + 11) % 2 ^ 128)
    (bytes.length % 2 ^ 128)

/-- Byte sequence hashed for a frame list (`frame_list.hash(&mut hasher)`);
a stand-in serialization of the frames. -/
def framesBytes (frames : List Frame) : List Nat :=
  frames.flatMap (fun f =>
    u128le f.id.file_id ++ u64le f.id.addr_or_line ++
    (match f.kind with
     | .regular i => [0, (interpTag i)]
     | .error i => [1, (interpTag i)]
     | .abort => [2, 0]
     | .unknown r => [3, r % 256]
     | .unknownError r => [4, r % 256]))
where
  interpTag : InterpKind → Nat
    | .python => 1 | .php => 2 | .native => 3 | .kernel => 4
    | .jvm => 5 | .ruby => 6 | .perl => 7 | .js => 8
    | .phpJit => 9 | .dotNet => 10 | .beam => 11 | .go => 12

-- ---------- OTLP protobuf payload model (collector/otlp/service.rs inputs) ----------

/-- `any_value::Value` collapsed through the two `Option` layers of
`KeyValue.value`: either a string value or some non-string value. -/
inductive PbValue where
  | str (s : String)
  | nonString
  deriving DecidableEq, Repr

/-- `common::v1::KeyValue` (value `none` when either option layer is unset). -/
structure PbKeyValue where
  key : String
  value : Option PbValue
  deriving DecidableEq, Repr

/-- `Line` entry of a location. -/
structure PbLine where
  function_index : Int
  line : Int
  column : Int
  deriving DecidableEq, Repr

/-- `Function` dictionary entry. -/
structure PbFunction where
  name_strindex : Int
  filename_strindex : Int
  deriving DecidableEq, Repr

/-- `Mapping` dictionary entry. -/
structure PbMapping where
  attribute_indices : List Int
  filename_strindex : Int
  deriving DecidableEq, Repr

/-- `Location` dictionary entry. -/
structure PbLocation where
  mapping_index : Option Int
  address : Nat
  attribute_indices : List Int
  line : List PbLine
  deriving DecidableEq, Repr

/-- `ProfilesDictionary`. -/
structure PbDict where
  string_table : List String
  attribute_table : List PbKeyValue
  function_table : List PbFunction
  mapping_table : List PbMapping
  location_table : List PbLocation
  deriving DecidableEq, Repr

/-- `ValueType` (the profile's `sample_type` entry). -/
structure PbValueType where
  type_strindex : Int
  unit_strindex : Int
  deriving DecidableEq, Repr

/-- `Sample`. -/
structure PbSample where
  locations_start_index : Int
  locations_length : Int
  attribute_indices : List Int
  timestamps_unix_nano : List Nat
  deriving DecidableEq, Repr

/-- `Profile`. -/
structure PbProfile where
  sample_type : List PbValueType
  sample : List PbSample
  location_indices : List Int
  deriving DecidableEq, Repr

/-- `ScopeProfiles`. -/
structure PbScopeProfile where
  profiles : List PbProfile
  deriving DecidableEq, Repr

/-- `ResourceProfiles`. -/
structure PbResourceProfile where
  scope_profiles : List PbScopeProfile
  deriving DecidableEq, Repr

/-- `ExportProfilesServiceRequest`. -/
structure PbRequest where
  dictionary : Option PbDict
  resource_profiles : List PbResourceProfile
  deriving DecidableEq, Repr

-- ---------- Ingestion helpers (collector/otlp/service.rs) ----------

/-- How an export request can fail: a `Status::invalid_argument` rejection,
or a Rust panic (`Option::unwrap` on `None`, `try_into().unwrap()` on a
negative index). -/
inductive IngestErr where
  | invalidArgument (msg : String)
  | unwrapNone
  deriving DecidableEq, Repr

/-- `idx as usize` for a signed index: two's-complement reinterpretation,
so negative values become astronomically large (and therefore out of
bounds for any real table). -/
def usizeOfI (x : Int) : Nat := (x % 2 ^ 64).toNat

/-- `usize::saturating_add`. -/
def usizeSatAdd (a b : Nat) : Nat := min (a + b) (2 ^ 64 - 1)

/-- `get_str`: index 0 means "not optional" rejection; otherwise the string
table entry at the index, or an out-of-bounds rejection. -/
def getStr (table : List String) (index : Nat) (field : String) :
    Except IngestErr String :=
  if index = 0 then
    .error (.invalidArgument (field ++ " field is not optional"))
  else
    match table.get? index with
    | none => .error (.invalidArgument (field ++ " index out of bounds"))
    | some s => .ok s

/-- `get_str_opt`: index 0 is `None`, otherwise defers to `get_str`. -/
def getStrOpt (table : List String) (index : Nat) (field : String) :
    Except IngestErr (Option String) :=
  if index = 0 then .ok none
  else (getStr table index field).map some

/-- `get_attr`: walk the attribute indices; the first entry whose key
matches the field must be a string value; a non-matching key continues; an
out-of-bounds index, a non-string value, an empty index list or no match
at all are rejections. -/
def getAttrGo (table : List PbKeyValue) (field : String) :
    List Int → Except IngestErr String
  | [] => .error (.invalidArgument
      ("failed to get " ++ field ++ " from attributes_tables for mapping"))
  | idx :: rest =>
    match table.get? (usizeOfI idx) with
    | none => .error (.invalidArgument "index out of bounds")
    | some kv =>
      if kv.key ≠ field then getAttrGo table field rest
      else
        match kv.value with
        | some (.str s) => .ok s
        | _ => .error (.invalidArgument ("failed to cast as string for " ++ field))

/-- `get_attr` entry point: an empty index list is rejected up front. -/
def getAttr (table : List PbKeyValue) (indices : List Int) (field : String) :
    Except IngestErr String :=
  if indices.isEmpty then .error (.invalidArgument "empty list of attribute indices")
  else getAttrGo table field indices

/-- The `profile.frame.type` string to `FrameKind` mapping in
`ingest_locations`; any other string is rejected there. -/
def frameKindOfStr (s : String) : Option FrameKind :=
  if s = "native" then some (.regular .native)
  else if s = "kernel" then some (.regular .kernel)
  else if s = "jvm" then some (.regular .jvm)
  else if s = "perl" then some (.regular .perl)
  else if s = "cpython" then some (.regular .python)
  else if s = "php" then some (.regular .php)
  else if s = "phpjit" then some (.regular .phpJit)
  else if s = "ruby" then some (.regular .ruby)
  else if s = "dotnet" then some (.regular .dotNet)
  else if s = "v8js" then some (.regular .js)
  else if s = "beam" then some (.regular .beam)
  else if s = "go" then some (.regular .go)
  else if s = "abort-marker" then some .abort
  else none

/-- `i64 as u64`: two's-complement wrap of a line number. -/
def i64AsU64 (x : Int) : Nat := (x % 2 ^ 64).toNat

/-- `i64::to_le_bytes`. -/
def i64le (x : Int) : List Nat := u64le (i64AsU64 x)

-- ---------- Database state (storage/mod.rs `Db`) ----------

/-- The tables of the global `Db` that ingestion touches, as association
lists. `TraceHash` and `FileId` keys are their `u128` values. -/
structure DbState where
  trace_events : Tbl TraceCountId TraceCount
  stack_traces : Tbl Nat (List Frame)
  stack_frames : Tbl FrameId FrameMetaData
  executables : Tbl FileId ExecutableMeta
  deriving DecidableEq, Repr

/-- A database with empty tables. -/
def emptyDb : DbState := ⟨[], [], [], []⟩

-- ---------- Pass 1: ingest_locations ----------

/-- The xxh3 build-id fallback hash of `ingest_locations`: over every line
entry, the function name and file name when resolvable (lookup errors are
ignored here), then `line.line` and `line.column` in little-endian. -/
def locLinesHash (dic : PbDict) (loc : PbLocation) : Nat :=
  xxh3Digest64 (loc.line.flatMap (fun line =>
    (if line.function_index ≠ 0 then
      match dic.function_table.get? (usizeOfI line.function_index) with
      | some fnRef =>
        (match getStrOpt dic.string_table (usizeOfI fnRef.name_strindex) "function name" with
         | .ok (some nm) => [strBytes nm]
         | _ => []) ++
        (match getStrOpt dic.string_table (usizeOfI fnRef.filename_strindex) "function filename" with
         | .ok (some fn) => [strBytes fn]
         | _ => [])
      | none => []
    else []) ++ [i64le line.line, i64le line.column]))

/-- The effects of one `ingest_locations` loop iteration: the frame pushed
into the position-indexed list, an immediate `executables` insert if any,
and a `stack_frames` batch entry if any. -/
structure LocStepOut where
  frame : Frame
  execIns : Option (FileId × ExecutableMeta)
  frameIns : Option (FrameId × FrameMetaData)
  deriving DecidableEq, Repr

/-- One iteration of the `ingest_locations` loop over `dic.location_table`,
reading the current `executables` table for the `contains_key` check. -/
def ingestLocStep (dic : PbDict) (execs : Tbl FileId ExecutableMeta)
    (loc : PbLocation) : Except IngestErr LocStepOut := do
  let kindStr ← getAttr dic.attribute_table loc.attribute_indices "profile.frame.type"
  let some kind := frameKindOfStr kindStr
    | .error (.invalidArgument ("unsupported frame kind: " ++ kindStr))
  if kind = .abort then
    return ⟨⟨⟨fileIdFromParts 1 1, loc.address⟩, kind⟩, none, none⟩
  let some mi := loc.mapping_index
    | .error .unwrapNone
  let some mapping := dic.mapping_table.get? (usizeOfI mi)
    | .error (.invalidArgument "mapping index is out of bounds")
  let buildIdStr ←
    if !mapping.attribute_indices.isEmpty then
      match getAttr dic.attribute_table mapping.attribute_indices
          "process.executable.build_id.htlhash" with
      | .ok s => pure s
      | .error _ =>
        getAttr dic.attribute_table mapping.attribute_indices
          "process.executable.build_id.profiling"
    else
      pure (toHex16 (locLinesHash dic loc))
  let some file_id := (tryParseEs buildIdStr).or (tryParseHex buildIdStr)
    | .error (.invalidArgument "failed to parse file ID")
  let id : FrameId := ⟨file_id, loc.address⟩
  let frame : Frame := ⟨id, kind⟩
  if kind.interpOf = some .native then
    match tblLookup execs file_id with
    | some _ => return ⟨frame, none, none⟩
    | none =>
      let fname ← getStrOpt dic.string_table (usizeOfI mapping.filename_strindex) "file name"
      return ⟨frame, some (file_id, ⟨none, fname, .notAttempted⟩), none⟩
  else
    match loc.line.head? with
    | none => return ⟨frame, none, none⟩
    | some line =>
      if line.function_index ≠ 0 then
        let some fnRef := dic.function_table.get? (usizeOfI line.function_index)
          | .error (.invalidArgument "invalid function index")
        let function_name ← getStrOpt dic.string_table (usizeOfI fnRef.name_strindex) "function name"
        let file_name ← getStrOpt dic.string_table (usizeOfI fnRef.filename_strindex) "function filename"
        return ⟨frame, none, some (id, ⟨file_name, function_name, i64AsU64 line.line, 0⟩)⟩
      else
        return ⟨frame, none, none⟩

/-- Apply an optional immediate `executables` insert. -/
def applyExecIns (st : DbState) : Option (FileId × ExecutableMeta) → DbState
  | none => st
  | some (k, v) => { st with executables := tblInsert st.executables k v }

/-- The `ingest_locations` loop: per location run one step; the
`executables` insert takes effect immediately, the `stack_frames` entry is
only accumulated into the batch. An error abandons loop, frames and batch
but keeps the state mutations made so far. -/
def ingestLocLoop (dic : PbDict) (st : DbState)
    (batch : List (FrameId × FrameMetaData)) (frames : List Frame) :
    List PbLocation →
    (Except IngestErr (List Frame × List (FrameId × FrameMetaData))) × DbState
  | [] => (.ok (frames, batch), st)
  | loc :: rest =>
    match ingestLocStep dic st.executables loc with
    | .error e => (.error e, st)
    | .ok out =>
      ingestLocLoop dic (applyExecIns st out.execIns)
        (batch ++ out.frameIns.toList) (frames ++ [out.frame]) rest

/-- `ingest_locations`: run the loop over the location table; on success
commit the `stack_frames` batch and return the position-indexed frame
list. On failure the batch is dropped (never committed). -/
def ingestLocations (dic : PbDict) (st : DbState) :
    (Except IngestErr (List Frame)) × DbState :=
  match ingestLocLoop dic st [] [] dic.location_table with
  | (.error e, st') => (.error e, st')
  | (.ok (frames, batch), st') =>
    (.ok frames, { st' with stack_frames := commitBatch batch st'.stack_frames })

-- ---------- Pass 2: samples ----------

/-- `collect_frame_list`: walk
`locations_start_index ..< locations_start_index saturating+ locations_length`,
resolve each index through `profile.location_indices` and then through the
Pass-1 frame list; either indirection going out of bounds rejects. -/
def collectFrameListGo {V : Type} (locMapping : List V)
    (profileLocationIndices : List Int) (acc : List V) :
    List Nat → Except IngestErr (List V)
  | [] => .ok acc
  | locIndex :: rest =>
    match profileLocationIndices.get? locIndex with
    | none => .error (.invalidArgument "location_indices: index is out of bounds")
    | some tableIdx =>
      match locMapping.get? (usizeOfI tableIdx) with
      | none => .error (.invalidArgument "location_table: index is out of bounds")
      | some frame => collectFrameListGo locMapping profileLocationIndices (acc ++ [frame]) rest

/-- `collect_frame_list` entry point (indices are `i32` cast to `usize`). -/
def collectFrameList {V : Type} (locStart locLen : Int) (locMapping : List V)
    (profileLocationIndices : List Int) : Except IngestErr (List V) :=
  let s := usizeOfI locStart
  let e := usizeSatAdd s (usizeOfI locLen)
  collectFrameListGo locMapping profileLocationIndices [] (List.range' s (e - s))

/-- The `(sample_type.type, sample_type.unit)` to `SampleKind` mapping in
`process_sample`. -/
def sampleKindOf (t u : String) : SampleKind :=
  if t = "samples" ∧ u = "count" then .onCPU
  else if t = "events" ∧ u = "nanoseconds" then .offCPU
  else .unknown

/-- `sample_type.type_strindex.try_into().unwrap()`: `i32 → usize`, panics
on a negative index. -/
def tryIntoUsize (x : Int) : Except IngestErr Nat :=
  if x < 0 then .error .unwrapNone else .ok x.toNat

/-- The per-timestamp loop of `process_sample`: normalize the timestamp,
draw a random id, resolve the sample type/unit strings (each resolution can
reject), classify the kind, and stage the `(TraceCountId, TraceCount)`
event into the batch. `gen` supplies the process-local random ids, `ctr`
counts how many were drawn. -/
def buildEventsGo (dict : PbDict) (sampleType : PbValueType) (traceHash : Nat)
    (comm : Except IngestErr String) (gen : Nat → Nat) :
    List Nat → Nat → List (TraceCountId × TraceCount) →
    (Except IngestErr (List (TraceCountId × TraceCount))) × Nat
  | [], ctr, acc => (.ok acc, ctr)
  | ts :: rest, ctr, acc =>
    let timestamp := normalizeTimestamp ts
    let id : TraceCountId := ⟨timestamp, gen ctr⟩
    match tryIntoUsize sampleType.type_strindex with
    | .error e => (.error e, ctr + 1)
    | .ok sttIdx =>
      match getStr dict.string_table sttIdx "sample_type.type" with
      | .error e => (.error e, ctr + 1)
      | .ok sampleTypeType =>
        match tryIntoUsize sampleType.unit_strindex with
        | .error e => (.error e, ctr + 1)
        | .ok stuIdx =>
          match getStr dict.string_table stuIdx "sample_type.unit" with
          | .error e => (.error e, ctr + 1)
          | .ok sampleTypeUnit =>
            let kind := sampleKindOf sampleTypeType sampleTypeUnit
            let value : TraceCount :=
              ⟨timestamp, traceHash, 1, comm.toOption.getD "", none, none, kind⟩
            buildEventsGo dict sampleType traceHash comm gen rest (ctr + 1)
              (acc ++ [(id, value)])

/-- `process_sample`: hash the frame list, insert it into `stack_traces`
immediately (outside any batch), then build the per-timestamp event batch
and commit it on success; on failure the event batch is dropped but the
`stack_traces` insert stays. `now` is the fallback wall-clock seconds value
used when the sample carries no timestamps. -/
def processSample (dict : PbDict) (sampleType : PbValueType) (sample : PbSample)
    (frameList : List Frame) (gen : Nat → Nat) (ctr : Nat) (now : Nat)
    (st : DbState) : (Except IngestErr Unit) × DbState × Nat :=
  let traceHash := xxh3Digest128 (framesBytes frameList)
  let st := { st with stack_traces := tblInsert st.stack_traces traceHash frameList }
  let timestamps :=
    if sample.timestamps_unix_nano.isEmpty then [now] else sample.timestamps_unix_nano
  let comm := getAttr dict.attribute_table sample.attribute_indices "thread.name"
  match buildEventsGo dict sampleType traceHash comm gen timestamps ctr [] with
  | (.error e, ctr') => (.error e, st, ctr')
  | (.ok evs, ctr') =>
    (.ok (), { st with trace_events := commitBatch evs st.trace_events }, ctr')

-- ---------- The export handler ----------

/-- The per-sample loop of `export` for one profile (whose single
`sample_type` entry is `vt`). -/
def exportSamples (dict : PbDict) (vt : PbValueType) (locMapping : List Frame)
    (locationIndices : List Int) (gen : Nat → Nat) (now : Nat) :
    List PbSample → Nat → DbState → (Except IngestErr Unit) × DbState × Nat
  | [], ctr, st => (.ok (), st, ctr)
  | sample :: rest, ctr, st =>
    match collectFrameList sample.locations_start_index sample.locations_length
        locMapping locationIndices with
    | .error e => (.error e, st, ctr)
    | .ok frameList =>
      match processSample dict vt sample frameList gen ctr now st with
      | (.error e, st', ctr') => (.error e, st', ctr')
      | (.ok _, st', ctr') => exportSamples dict vt locMapping locationIndices gen now rest ctr' st'

/-- The profile loop of `export`: a profile whose `sample_type` length is
not 1 is skipped with a warning; otherwise its samples are processed. -/
def exportProfiles (dict : PbDict) (locMapping : List Frame) (gen : Nat → Nat)
    (now : Nat) : List PbProfile → Nat → DbState →
    (Except IngestErr Unit) × DbState × Nat
  | [], ctr, st => (.ok (), st, ctr)
  | p :: rest, ctr, st =>
    match p.sample_type with
    | [vt] =>
      match exportSamples dict vt locMapping p.location_indices gen now p.sample ctr st with
      | (.error e, st', ctr') => (.error e, st', ctr')
      | (.ok _, st', ctr') => exportProfiles dict locMapping gen now rest ctr' st'
    | _ => exportProfiles dict locMapping gen now rest ctr st

/-- The `export` RPC handler: require the dictionary, run Pass 1
(`ingest_locations`), then walk every resource/scope/profile in order
(flattened here, which preserves the nested loop order) processing each
sample; the first failure aborts the request, keeping whatever state was
already persisted. -/
def exportRequest (r : PbRequest) (gen : Nat → Nat) (now : Nat) (st : DbState) :
    (Except IngestErr Unit) × DbState :=
  match r.dictionary with
  | none => (.error (.invalidArgument "ProfilesDictionary is required"), st)
  | some dict =>
    match ingestLocations dict st with
    | (.error e, st') => (.error e, st')
    | (.ok locMapping, st') =>
      let profiles :=
        ((r.resource_profiles.map (·.scope_profiles)).flatten.map (·.profiles)).flatten
      match exportProfiles dict locMapping gen now profiles 0 st' with
      | (.error e, st'', _) => (.error e, st'')
      | (.ok _, st'', _) => (.ok (), st'')

-- ---------- Interval tree (storage/rkyvtree.rs) ----------

namespace rkyvtree

/-- `Element<K, V>` with `K = u64`: a half-open range `[start, stop)` and a
value (`stop` is the Rust `range.end`; `end` is a Lean keyword). -/
structure Element (V : Type) where
  start : Nat
  stop : Nat
  value : V
  deriving DecidableEq, Repr

/-- `Node<K, V>`: an element plus the subtree maximum of `range.end`. -/
structure Node (V : Type) where
  element : Element V
  max : Nat
  deriving DecidableEq, Repr

/-- The node built by `FromIterator` before `update_max` runs:
`max` starts as the element's own `range.end`. -/
def mkNode {V : Type} (e : Element V) : Node V := ⟨e, e.stop⟩

/-- `Tree::update_max`: the node at the midpoint `i = len / 2` has its
`max` raised by the left half's subtree maximum (when the left half is
non-empty) and then by the right half's (when non-empty); returns the
updated slice together with the midpoint's final `max`. -/
def updateMax {V : Type} : List (Node V) → List (Node V) × Nat
  | [] => ([], 0)
  | a :: t =>
    match hdrop : (a :: t).drop ((a :: t).length / 2) with
    | [] => (a :: t, 0)
    | node :: right =>
      let resL := updateMax ((a :: t).take ((a :: t).length / 2))
      let max1 := if ((a :: t).take ((a :: t).length / 2)).isEmpty then node.max
                  else Nat.max node.max resL.2
      let resR := updateMax right
      let max2 := if right.isEmpty then max1 else Nat.max max1 resR.2
      (resL.1 ++ ⟨node.element, max2⟩ :: resR.1, max2)
  termination_by ns => ns.length
  decreasing_by
  · exact Nat.lt_of_le_of_lt (List.length_take_le _ _)
      (Nat.div_lt_self (by simp) (by omega))
  · have hlen := congrArg List.length hdrop
    simp only [List.length_drop, List.length_cons] at hlen ⊢
    omega

/-- `Tree::from_iter`: wrap every element in a node, sort by `range.start`
(`sort_unstable_by` — the relative order of equal starts is unspecified in
Rust; `mergeSort` is one admissible order), then run `update_max` on the
non-empty result. The returned list is the tree's `data` vector. -/
def fromIter {V : Type} (l : List (Element V)) : List (Node V) :=
  let nodes := (l.map mkNode).mergeSort
    (fun a b => decide (a.element.start ≤ b.element.start))
  if nodes.isEmpty then nodes else (updateMax nodes).1

/-- Measure for the query traversal: every stack entry `(s, l)` weighs
`2 * l + 1`. -/
def todoMeasure (todo : List (Nat × Nat)) : Nat :=
  (todo.map (fun x => 2 * x.2 + 1)).sum

/-- `QueryIter::next` for a point query, iterated to exhaustion: pop a
segment `(s, l)`, inspect the node at `i = s + l / 2`; below the subtree
max, push the left half, and if the point is at or past the node's start
also push the right half and yield the node's element when the point is
inside its range. The todo stack is a LIFO list (head = top). A popped
index outside `data` (impossible for stacks arising from a real tree) just
skips. -/
def queryLoop {V : Type} (data : List (Node V)) (p : Nat) :
    List (Nat × Nat) → List (Element V)
  | [] => []
  | (s, l) :: todo =>
    match data.drop (s + l / 2) with
    | [] => queryLoop data p todo
    | node :: _ =>
      if p < node.max then
        let todo1 := if 0 < (s + l / 2) - s then (s, (s + l / 2) - s) :: todo else todo
        if node.element.start ≤ p then
          let todo2 := if 0 < l + s - (s + l / 2) - 1 then
              (s + l / 2 + 1, l + s - (s + l / 2) - 1) :: todo1
            else todo1
          if p < node.element.stop then node.element :: queryLoop data p todo2
          else queryLoop data p todo2
        else queryLoop data p todo1
      else queryLoop data p todo
  termination_by todo => todoMeasure todo
  decreasing_by
  all_goals
    simp only [todoMeasure, List.map_cons, List.sum_cons]
    repeat' split
    all_goals try simp only [List.map_cons, List.sum_cons]
    all_goals omega

/-- `ArchivedTree::query_point`: seed the stack with the whole-array
segment when the data vector is non-empty. -/
def queryPoint {V : Type} (data : List (Node V)) (p : Nat) : List (Element V) :=
  queryLoop data p (if data.isEmpty then [] else [(0, data.length)])

end rkyvtree

-- ---------- Symbolization (storage/symdb/mod.rs) ----------

/-- `SymRange`: interned string references are `u32` indices into the
tree's string table (`StringRef`), the line table maps instruction offsets
to line numbers. -/
structure SymRange where
  func : Nat
  file : Nat
  call_file : Nat
  call_line : Option Nat
  depth : Nat
  line_table : List (Nat × Nat)
  deriving DecidableEq, Repr

/-- `SymTree`: string table plus the interval tree's data vector. -/
structure SymTree where
  strings : List String
  tree : List (rkyvtree.Node SymRange)
  deriving DecidableEq, Repr

/-- `ArchivedSymTree::str_by_ref`. -/
def strByRef (strings : List String) (idx : Nat) : Option String :=
  strings.get? idx

/-- `ArchivedSymRange::line_number_for_va`: `None` when the address is
below the range start (`checked_sub`), otherwise the line of the last
table entry whose offset does not exceed `va - range.start`. -/
def lineNumberForVaGo (maxOffs : Nat) : List (Nat × Nat) → Option Nat → Option Nat
  | [], acc => acc
  | (off, ln) :: rest, acc =>
    if off > maxOffs then acc else lineNumberForVaGo maxOffs rest (some ln)

/-- `line_number_for_va` entry point. -/
def lineNumberForVa (lineTable : List (Nat × Nat)) (symStart va : Nat) : Option Nat :=
  if va < symStart then none
  else lineNumberForVaGo (va - symStart) lineTable none

/-- `SymbolizedFrame`. -/
structure SymbolizedFrame where
  raw : Frame
  func : Option String
  file : Option String
  line_no : Option Nat
  deriving DecidableEq, Repr

/-- `SymbolizedFrame::unsymbolized`. -/
def SymbolizedFrame.unsymbolized (raw : Frame) : SymbolizedFrame :=
  ⟨raw, none, none, none⟩

/-- `symbolize_iterp_frame`: look the frame id up in `stack_frames`; a
missing entry yields the unsymbolized record, a present one carries the
stored names and a line number with 0 mapped to `None`. -/
def symbolizeIterpFrame (stackFrames : Tbl FrameId FrameMetaData)
    (raw : Frame) : SymbolizedFrame :=
  match tblLookup stackFrames raw.id with
  | none => .unsymbolized raw
  | some fm =>
    ⟨raw, fm.function_name, fm.file_name,
     if fm.line_number = 0 then none else some fm.line_number⟩

/-- `Vec::dedup_by_key` on the depth key: of consecutive elements with
equal depth only the first survives. -/
def dedupByDepth : List (rkyvtree.Element SymRange) → List (rkyvtree.Element SymRange)
  | [] => []
  | [x] => [x]
  | x :: y :: rest =>
    if y.value.depth = x.value.depth then dedupByDepth (x :: rest)
    else x :: dedupByDepth (y :: rest)
  termination_by l => l.length

/-- The inline-trace walk of `symbolize_native_frame`: all but the last
(deepest) entry take file and line from the next entry's `call_file` and
`call_line`; the last resolves its own file and the line table; with
`inline_frames = false` the walk stops after the first record. -/
def walkSyms (strings : List String) (raw : Frame) (inlineFrames : Bool) :
    List (rkyvtree.Element SymRange) → List SymbolizedFrame
  | [] => []
  | e :: rest =>
    let fl : Nat × Option Nat :=
      match rest with
      | next :: _ => (next.value.call_file, next.value.call_line)
      | [] => (e.value.file,
               lineNumberForVa e.value.line_table e.start raw.id.addr_or_line)
    let sf : SymbolizedFrame :=
      ⟨raw, strByRef strings e.value.func, strByRef strings fl.1, fl.2⟩
    if inlineFrames then sf :: walkSyms strings raw inlineFrames rest else [sf]

/-- `symbolize_native_frame`: without a tree for the executable the frame
stays unsymbolized; otherwise query the tree at the address, sort by depth
ascending, dedup by depth, and walk the inline trace (an empty hit list
also yields the unsymbolized record). -/
def symbolizeNativeFrame (symStore : FileId → Option SymTree) (raw : Frame)
    (inlineFrames : Bool) : List SymbolizedFrame :=
  match symStore raw.id.file_id with
  | none => [.unsymbolized raw]
  | some tree =>
    let syms := rkyvtree.queryPoint tree.tree raw.id.addr_or_line
    let syms := syms.mergeSort (fun a b => decide (a.value.depth ≤ b.value.depth))
    let syms := dedupByDepth syms
    if syms.isEmpty then [.unsymbolized raw]
    else walkSyms tree.strings raw inlineFrames syms

/-- `symbolize_frame`: only a frame whose kind is exactly
`Regular(Native)` goes to the symbol store; every other kind (including
`Error(Native)`) resolves through `stack_frames` like an interpreter
frame. -/
def symbolizeFrame (symStore : FileId → Option SymTree)
    (stackFrames : Tbl FrameId FrameMetaData) (raw : Frame)
    (inlineFrames : Bool) : List SymbolizedFrame :=
  if raw.kind = .regular .native then
    symbolizeNativeFrame symStore raw inlineFrames
  else
    [symbolizeIterpFrame stackFrames raw]

-- ---------- Interval tree specification vocabulary ----------

namespace rkyvtree

/-- Containment of a point in an element's half-open range:
`range.start ≤ p < range.end`. -/
def containsB {V : Type} (p : Nat) (e : Element V) : Bool :=
  decide (e.start ≤ p) && decide (p < e.stop)

/-- The multiset of elements in segment `(s, l)` of `data` containing `p`. -/
def segFilter {V : Type} (data : List (Node V)) (p : Nat) (s l : Nat) :
    Multiset (Element V) :=
  ↑((((data.drop s).take l).map (·.element)).filter (containsB p))

/-- Soundness of the `max` annotations over the implicit segment
decomposition used by both `update_max` and the query traversal: for a
non-empty segment `(s, l)`, the node at index `s + l / 2` exists and its
`max` bounds every `range.end` in the segment, recursively on both
halves. -/
inductive MaxOK {V : Type} (data : List (Node V)) : Nat → Nat → Prop where
  | zero (s : Nat) : MaxOK data s 0
  | node (s l : Nat) (nd : Node V) (rest : List (Node V))
      (hl : 0 < l)
      (hdrop : data.drop (s + l / 2) = nd :: rest)
      (hub : ∀ x ∈ (data.drop s).take l, x.element.stop ≤ nd.max)
      (hleft : MaxOK data s (l / 2))
      (hright : MaxOK data (s + l / 2 + 1) (l - l / 2 - 1)) :
      MaxOK data s l

/-- Start-sortedness of the node array. -/
def SortedStart {V : Type} (data : List (Node V)) : Prop :=
  List.Pairwise (fun a b : Node V => a.element.start ≤ b.element.start) data

end rkyvtree

-- ---------- Concrete scenario inputs used by counterexamples and witnesses ----------

/-- Resolution of the sample kind from a profile's `sample_type` entry, as
`process_sample` performs it per event: cast and look up the type and unit
strings, then classify. Extracted from the event loop body for stating
per-event facts. -/
def sampleTypeKind (dict : PbDict) (vt : PbValueType) : Except IngestErr SampleKind := do
  let sttIdx ← tryIntoUsize vt.type_strindex
  let t ← getStr dict.string_table sttIdx "sample_type.type"
  let stuIdx ← tryIntoUsize vt.unit_strindex
  let u ← getStr dict.string_table stuIdx "sample_type.unit"
  pure (sampleKindOf t u)

/-- A dictionary whose string table resolves `sample_type` `(1, 2)` to
`("samples", "count")`. -/
def c1Dict : PbDict :=
  { string_table := ["", "samples", "count"]
    attribute_table := []
    function_table := []
    mapping_table := []
    location_table := [] }

/-- The file id parsed from the build id `"0123456789abcdef0123456789abcdef"`. -/
def cexFid : FileId := 0x0123456789abcdef0123456789abcdef

/-- A dictionary whose first location is a valid native frame (with a
build-id attribute) and whose second location carries an unsupported
`profile.frame.type` value. -/
def c2Dict : PbDict :=
  { string_table := ["", "libfoo.so"]
    attribute_table :=
      [⟨"profile.frame.type", some (.str "native")⟩,
       ⟨"process.executable.build_id.htlhash",
        some (.str "0123456789abcdef0123456789abcdef")⟩,
       ⟨"profile.frame.type", some (.str "bogus")⟩]
    function_table := []
    mapping_table := [⟨[1], 1⟩]
    location_table :=
      [⟨some 0, 16, [0], []⟩,
       ⟨some 0, 32, [2], []⟩] }

/-- An export request carrying `c2Dict` and no profiles. -/
def c2Req : PbRequest := ⟨some c2Dict, []⟩

/-- The `stack_frames` key written by the `c7Dict` request. -/
def c7Key : FrameId := ⟨cexFid, 64⟩

/-- Metadata already stored under `c7Key` before the request. -/
def c7Old : FrameMetaData := ⟨some "old.py", some "old_func", 1, 0⟩

/-- Metadata the `c7Dict` request enqueues for `c7Key`. -/
def c7New : FrameMetaData := ⟨some "new.py", some "new_func", 42, 0⟩

/-- A dictionary with a single cpython location whose first line resolves
to function `"new_func"` in `"new.py"` at line 42, mapped to the same
`FrameId` as the pre-existing `c7Old` entry. -/
def c7Dict : PbDict :=
  { string_table := ["", "new_func", "new.py"]
    attribute_table :=
      [⟨"profile.frame.type", some (.str "cpython")⟩,
       ⟨"process.executable.build_id.htlhash",
        some (.str "0123456789abcdef0123456789abcdef")⟩]
    function_table := [⟨0, 0⟩, ⟨1, 2⟩]
    mapping_table := [⟨[1], 0⟩]
    location_table := [⟨some 0, 64, [0], [⟨1, 42, 0⟩]⟩] }

/-- A database that already holds `c7Old` under `c7Key`. -/
def c7St : DbState := { emptyDb with stack_frames := [(c7Key, c7Old)] }

-- ==================== Theorems ====================

-- ---------- Shared helper lemmas ----------

/-- Lexicographic comparison ignores a shared prefix. -/
theorem lexLeB_append_left (x u v : List Nat) :
    lexLeB (x ++ u) (x ++ v) = lexLeB u v := by
  induction x with
  | nil => rfl
  | cons a x ih => simp [lexLeB, ih]

/-- Folding big-endian digits from an arbitrary accumulator. -/
theorem beVal_foldl (i : Nat) (u : List Nat) :
    u.foldl (fun a b => a * 256 + b) i = i * 256 ^ u.length + beVal u := by
  induction u generalizing i with
  | nil => simp [beVal]
  | cons b u ih =>
    simp only [List.foldl_cons, List.length_cons, beVal]
    rw [ih (i * 256 + b), ih (0 * 256 + b)]
    ring

/-- A byte string's big-endian value is bounded by `256 ^ length`. -/
theorem beVal_lt (u : List Nat) (h : ∀ x ∈ u, x < 256) :
    beVal u < 256 ^ u.length := by
  induction u with
  | nil => simp [beVal]
  | cons a u ih =>
    have ha : a < 256 := h a (by simp)
    have hu := ih (fun x hx => h x (by simp [hx]))
    have : beVal (a :: u) = a * 256 ^ u.length + beVal u := by
      simpa [beVal] using beVal_foldl a u
    rw [this, List.length_cons, pow_succ]
    calc a * 256 ^ u.length + beVal u
        < a * 256 ^ u.length + 256 ^ u.length := by omega
      _ = (a + 1) * 256 ^ u.length := by ring
      _ ≤ 256 * 256 ^ u.length := Nat.mul_le_mul_right _ (by omega)
      _ = 256 ^ u.length * 256 := by ring

/-- On equal-length byte strings, lexicographic order is value order. -/
theorem lexLeB_iff_beVal : ∀ (u v : List Nat), u.length = v.length →
    (∀ x ∈ u, x < 256) → (∀ x ∈ v, x < 256) →
    (lexLeB u v = true ↔ beVal u ≤ beVal v)
  | [], [], _, _, _ => by simp [lexLeB, beVal]
  | [], _ :: _, h, _, _ => by simp at h
  | _ :: _, [], h, _, _ => by simp at h
  | a :: u, b :: v, h, hu, hv => by
    have hlen : u.length = v.length := by simpa using h
    have ha : a < 256 := hu a (by simp)
    have hb : b < 256 := hv b (by simp)
    have hub := beVal_lt u (fun x hx => hu x (by simp [hx]))
    have hvb := beVal_lt v (fun x hx => hv x (by simp [hx]))
    have ih := lexLeB_iff_beVal u v hlen
      (fun x hx => hu x (by simp [hx])) (fun x hx => hv x (by simp [hx]))
    have eu : beVal (a :: u) = a * 256 ^ u.length + beVal u := by
      simpa [beVal] using beVal_foldl a u
    have ev : beVal (b :: v) = b * 256 ^ v.length + beVal v := by
      simpa [beVal] using beVal_foldl b v
    have hvb' : beVal v < 256 ^ u.length := hlen ▸ hvb
    have key : ∀ (x y xv yv P : Nat), x < y → xv < P → x * P + xv < y * P + yv := by
      intro x y xv yv P hxy hxv
      calc x * P + xv < x * P + P := by omega
        _ = (x + 1) * P := by ring
        _ ≤ y * P := Nat.mul_le_mul_right _ (by omega)
        _ ≤ y * P + yv := Nat.le_add_right _ _
    rw [show lexLeB (a :: u) (b :: v)
          = if a < b then true else if b < a then false else lexLeB u v from rfl,
      eu, ev, ← hlen]
    by_cases hab : a < b
    · rw [if_pos hab]
      simp only [true_iff]
      exact le_of_lt (key a b (beVal u) (beVal v) _ hab hub)
    · by_cases hba : b < a
      · rw [if_neg hab, if_pos hba]
        simp only [Bool.false_eq_true, false_iff, not_le]
        exact key b a (beVal v) (beVal u) _ hba hvb'
      · have hab' : a = b := by omega
        subst hab'
        rw [if_neg hab, if_neg hab, ih]
        exact ⟨fun hle => Nat.add_le_add_left hle _,
               fun hle => Nat.le_of_add_le_add_left hle⟩

/-- Every byte of a `u64be` encoding is below 256. -/
theorem u64be_bytes_lt (a : Nat) : ∀ x ∈ u64be a, x < 256 := by
  simp only [u64be, List.mem_cons, List.not_mem_nil, or_false]
  intro x hx
  rcases hx with h | h | h | h | h | h | h | h <;> subst h <;> omega

/-- `beVal` inverts `u64be` on `u64` values. -/
theorem beVal_u64be (a : Nat) (h : a < 2 ^ 64) : beVal (u64be a) = a := by
  simp only [beVal, u64be, List.foldl]
  omega

/-- Big-endian `u64` byte strings compare like the numbers they encode. -/
theorem lexLeB_u64be (a b : Nat) (ha : a < 2 ^ 64) (hb : b < 2 ^ 64) :
    lexLeB (u64be a) (u64be b) = true ↔ a ≤ b := by
  rw [lexLeB_iff_beVal (u64be a) (u64be b) (by simp [u64be])
    (u64be_bytes_lt a) (u64be_bytes_lt b), beVal_u64be a ha, beVal_u64be b hb]

/-- `tblLookup` after a single replacing write. -/
theorem tblLookup_insert {K V : Type} [DecidableEq K] (t : Tbl K V) (k' k : K) (v : V) :
    tblLookup (tblInsert t k' v) k = if k' = k then some v else tblLookup t k := by
  simp only [tblLookup, tblInsert, List.find?]
  by_cases h : k' = k <;> simp [h]

/-- An `applyExecIns` step only ever touches the `executables` table. -/
theorem applyExecIns_preserves (st : DbState) (o : Option (FileId × ExecutableMeta)) :
    (applyExecIns st o).stack_frames = st.stack_frames
    ∧ (applyExecIns st o).trace_events = st.trace_events
    ∧ (applyExecIns st o).stack_traces = st.stack_traces := by
  cases o <;> simp [applyExecIns]

/-- The Pass-1 loop never touches `stack_frames`, `trace_events` or
`stack_traces`; those move only at batch commit time. -/
theorem ingestLocLoop_preserves (dic : PbDict) (locs : List PbLocation) :
    ∀ (st : DbState) (batch : List (FrameId × FrameMetaData)) (frames : List Frame),
      (ingestLocLoop dic st batch frames locs).2.stack_frames = st.stack_frames
      ∧ (ingestLocLoop dic st batch frames locs).2.trace_events = st.trace_events
      ∧ (ingestLocLoop dic st batch frames locs).2.stack_traces = st.stack_traces := by
  induction locs with
  | nil => intro st batch frames; simp [ingestLocLoop]
  | cons loc rest ih =>
    intro st batch frames
    simp only [ingestLocLoop]
    cases h : ingestLocStep dic st.executables loc with
    | error e => simp
    | ok out =>
      have hp := applyExecIns_preserves st out.execIns
      have := ih (applyExecIns st out.execIns) (batch ++ out.frameIns.toList)
        (frames ++ [out.frame])
      simp [this.1, this.2.1, this.2.2, hp.1, hp.2.1, hp.2.2]

-- ---------- C8 ----------

/-- Claim C8 (confirmed): a sample timestamp above
`1_704_063_600 * 1_000_000_000` is treated as nanoseconds and divided by
`1_000_000_000`; any other value is treated as milliseconds and divided by
`1_000`. -/
theorem c8_timestamp_normalization (ts : Nat) :
    normalizeTimestamp ts =
      if 1704063600 * 1000000000 < ts then ts / 1000000000 else ts / 1000 := rfl

-- ---------- C9 ----------

/-- Claim C9 (code bug): on a freshly created database that has never been
written, every tracked table's sequence number is still 0, and the first
`any_changes()` call of a fresh `UpdateWatcher` (whose stored sequence
numbers also start at 0) returns `false` — contradicting the function's
own documentation ("The first call will always return `true`"). -/
theorem c9_first_call_false_on_fresh_db :
    (anyChanges freshWatcherSeqs (List.replicate dbNumTables 0)).1 = false := by
  decide

-- ---------- C5 ----------

/-- Claim C5 (confirmed): with a known metric spec, the merge result folds
the operands (oldest first) onto `prev.unwrap_or(0)` with `saturating_add`
for counters and `max` for gauges, and the result is independent of how
the operand list is split across successive merge calls. -/
theorem c5_metrics_merge_fold (specById : Nat → Option MetricKind)
    (k : MetricKey) (kind : MetricKind) (prev : Option Int) (xs ys : List Int)
    (h : specById k.metric_id = some kind) :
    metricsMerge specById k prev xs =
      some (xs.foldl
        (match kind with | .counter => saturatingAdd | .gauge => max)
        (prev.getD 0))
    ∧ metricsMerge specById k prev (xs ++ ys)
      = metricsMerge specById k (metricsMerge specById k prev xs) ys := by
  unfold metricsMerge
  rw [h]
  cases kind <;> simp [List.foldl_append]

/-- Witness for C5 at a concrete counter metric. -/
theorem c5_metrics_merge_fold_witness :
    metricsMerge (fun _ => some .counter) ⟨0, 3⟩ (some 7) [1, 2] =
      some ([1, 2].foldl
        (match MetricKind.counter with | .counter => saturatingAdd | .gauge => max)
        ((some (7 : Int)).getD 0))
    ∧ metricsMerge (fun _ => some .counter) ⟨0, 3⟩ (some 7) ([1, 2] ++ [5])
      = metricsMerge (fun _ => some .counter) ⟨0, 3⟩
          (metricsMerge (fun _ => some .counter) ⟨0, 3⟩ (some 7) [1, 2]) [5] :=
  c5_metrics_merge_fold (fun _ => some .counter) ⟨0, 3⟩ .counter (some 7) [1, 2] [5] rfl

-- ---------- C6 ----------

/-- Claim C6 is false as stated: for an unknown metric id the merge keeps
the first (oldest) accumulated operand, not the newest (last) one. -/
theorem c6_unknown_metric_first_not_last :
    metricsMerge (fun _ => none) ⟨0, 5⟩ (some 0) [1, 2] = some 1
    ∧ [1, 2].getLast? = some 2
    ∧ ((some 1 : Option Int) ≠ some 2) := by
  refine ⟨rfl, rfl, by decide⟩

/-- Claim C6 (corrected): for an unknown metric id the merge result is the
first (oldest) operand of the merge chain, ignoring the previous value. -/
theorem c6_amended_unknown_metric_first_wins (specById : Nat → Option MetricKind)
    (k : MetricKey) (prev : Option Int) (vs : List Int)
    (h : specById k.metric_id = none) :
    metricsMerge specById k prev vs = vs.head? := by
  unfold metricsMerge
  rw [h]

/-- Witness for the corrected C6 at a concrete unknown metric. -/
theorem c6_amended_unknown_metric_first_wins_witness :
    metricsMerge (fun _ => none) ⟨9, 1234⟩ (some 5) [3, 4] = [3, 4].head? :=
  c6_amended_unknown_metric_first_wins (fun _ => none) ⟨9, 1234⟩ (some 5) [3, 4] rfl

-- ---------- C10 ----------

/-- Claim C10 (confirmed): a frame of kind `Error(Native)` — whose
`interp()` is `Native` — is not resolved through the symbol store (the
result does not depend on it) but through `stack_frames`, and yields the
single unsymbolized record when no `stack_frames` entry exists. -/
theorem c10_error_native_dispatch (store1 store2 : FileId → Option SymTree)
    (sf : Tbl FrameId FrameMetaData) (fr : Frame) (inl : Bool)
    (h : fr.kind = .error .native) :
    FrameKind.interpOf fr.kind = some .native
    ∧ symbolizeFrame store1 sf fr inl = symbolizeFrame store2 sf fr inl
    ∧ (tblLookup sf fr.id = none →
        symbolizeFrame store1 sf fr inl = [.unsymbolized fr]) := by
  refine ⟨by rw [h]; rfl, by simp [symbolizeFrame, h], ?_⟩
  intro h2
  simp [symbolizeFrame, h, symbolizeIterpFrame, h2]

/-- Witness for C10 at a concrete error-native frame and empty tables. -/
theorem c10_error_native_dispatch_witness :
    FrameKind.interpOf (Frame.mk ⟨0, 0⟩ (.error .native)).kind = some .native
    ∧ symbolizeFrame (fun _ => none) [] ⟨⟨0, 0⟩, .error .native⟩ true
      = symbolizeFrame (fun _ => some ⟨[], []⟩) [] ⟨⟨0, 0⟩, .error .native⟩ true
    ∧ (tblLookup ([] : Tbl FrameId FrameMetaData) (Frame.mk ⟨0, 0⟩ (.error .native)).id = none →
        symbolizeFrame (fun _ => none) [] ⟨⟨0, 0⟩, .error .native⟩ true
          = [.unsymbolized ⟨⟨0, 0⟩, .error .native⟩]) :=
  c10_error_native_dispatch (fun _ => none) (fun _ => some ⟨[], []⟩) []
    ⟨⟨0, 0⟩, .error .native⟩ true rfl

-- ---------- C3 ----------

/-- Claim C3 is false as stated: `FileId::into_raw` is `u128::to_le_bytes`
(little-endian), so `FrameId` does not encode the FileId big-endian, and
FileId's numeric order disagrees with the lexicographic order of its
encoding (1 ≤ 256 numerically, yet the encoding of 256 sorts before the
encoding of 1). -/
theorem c3_fileid_encoding_contradicts_claim :
    fileIdIntoRaw 1 ≠ u128be 1
    ∧ frameIdIntoRaw ⟨1, 0⟩ ≠ u128be 1 ++ u64be 0
    ∧ (1 : FileId) ≤ 256
    ∧ lexLeB (fileIdIntoRaw 1) (fileIdIntoRaw 256) = false := by
  refine ⟨by decide, by decide, by decide, by decide⟩

/-- Claim C3 (corrected): `FrameId`'s order is (by `impl_ord_from_table_key`)
exactly the lexicographic order of its `into_raw` bytes; the encoding is
the FileId's bytes in **little**-endian followed by the VirtAddr in
big-endian; and for a fixed FileId the key order agrees with numeric
VirtAddr order (the big-endian half does order correctly). -/
theorem c3_amended_key_order :
    (∀ k1 k2 : FrameId, frameIdLe k1 k2 = lexLeB (frameIdIntoRaw k1) (frameIdIntoRaw k2))
    ∧ (∀ f a, frameIdIntoRaw ⟨f, a⟩ = u128le f ++ u64be a)
    ∧ (∀ f a1 a2, a1 < 2 ^ 64 → a2 < 2 ^ 64 →
        (frameIdLe ⟨f, a1⟩ ⟨f, a2⟩ = true ↔ a1 ≤ a2)) := by
  refine ⟨fun k1 k2 => rfl, fun f a => rfl, fun f a1 a2 h1 h2 => ?_⟩
  unfold frameIdLe frameIdIntoRaw
  simp only []
  rw [lexLeB_append_left]
  exact lexLeB_u64be a1 a2 h1 h2

/-- Witness for the corrected C3 at concrete keys. -/
theorem c3_amended_key_order_witness :
    frameIdLe ⟨5, 3⟩ ⟨5, 7⟩ = lexLeB (frameIdIntoRaw ⟨5, 3⟩) (frameIdIntoRaw ⟨5, 7⟩)
    ∧ frameIdIntoRaw ⟨5, 3⟩ = u128le 5 ++ u64be 3
    ∧ (frameIdLe ⟨5, 3⟩ ⟨5, 7⟩ = true ↔ 3 ≤ 7) :=
  ⟨c3_amended_key_order.1 ⟨5, 3⟩ ⟨5, 7⟩, c3_amended_key_order.2.1 5 3,
   c3_amended_key_order.2.2 5 3 7 (by decide) (by decide)⟩

-- ---------- C1 ----------

/-- Claim C1 is false as stated: a trace event actually written by
ingestion has a key that encodes as 16 bytes (timestamp big-endian, id
little-endian) with no trailing kind byte; the sample kind travels in the
`TraceCount` value instead. -/
theorem c1_event_key_16_bytes_not_17 :
    (buildEventsGo c1Dict ⟨1, 2⟩ 99
        (.error (.invalidArgument "empty list of attribute indices"))
        (fun _ => 7) [1720000000000000000] 0 []).1
      = .ok [(⟨1720000000, 7⟩, ⟨1720000000, 99, 1, "", none, none, .onCPU⟩)]
    ∧ (traceCountIdIntoRaw ⟨1720000000, 7⟩).length = 16
    ∧ (traceCountIdIntoRaw ⟨1720000000, 7⟩).length ≠ 17 := by
  refine ⟨by rfl, by rfl, by decide⟩

/-- Every event the per-timestamp loop stages either was already in the
accumulator or carries the kind that the sample-type resolution yields. -/
theorem buildEventsGo_kinds (dict : PbDict) (vt : PbValueType) (th : Nat)
    (comm : Except IngestErr String) (gen : Nat → Nat) :
    ∀ (tss : List Nat) (ctr : Nat) (acc evs : List (TraceCountId × TraceCount)),
      (buildEventsGo dict vt th comm gen tss ctr acc).1 = .ok evs →
      ∀ kv ∈ evs, kv ∈ acc ∨ sampleTypeKind dict vt = .ok kv.2.kind := by
  intro tss
  induction tss with
  | nil =>
    intro ctr acc evs h kv hkv
    simp only [buildEventsGo] at h
    cases h
    exact Or.inl hkv
  | cons ts rest ih =>
    intro ctr acc evs h kv hkv
    simp only [buildEventsGo] at h
    split at h
    · simp at h
    · rename_i sttIdx heq1
      split at h
      · simp at h
      · rename_i t heq2
        split at h
        · simp at h
        · rename_i stuIdx heq3
          split at h
          · simp at h
          · rename_i u heq4
            rcases ih (ctr + 1) _ evs h kv hkv with hmem | hkind
            · rcases List.mem_append.1 hmem with h1 | h2
              · exact Or.inl h1
              · simp only [List.mem_singleton] at h2
                subst h2
                refine Or.inr ?_
                simp [sampleTypeKind, heq1, heq2, heq3, heq4, Bind.bind, Except.bind,
                  Pure.pure, Except.pure]
            · exact Or.inr hkind

/-- Claim C1 (corrected): every trace event written by ingestion has a key
encoding as exactly 16 bytes — the timestamp in big-endian followed by the
id in little-endian — and its sample kind is stored in the `TraceCount`
value (as resolved from the profile's sample type), not in the key. -/
theorem c1_amended_event_key_layout (dict : PbDict) (vt : PbValueType) (th : Nat)
    (comm : Except IngestErr String) (gen : Nat → Nat) (tss : List Nat) (ctr : Nat)
    (evs : List (TraceCountId × TraceCount))
    (h : (buildEventsGo dict vt th comm gen tss ctr []).1 = .ok evs) :
    ∀ kv ∈ evs,
      traceCountIdIntoRaw kv.1 = u64be kv.1.timestamp ++ u64le kv.1.id
      ∧ (traceCountIdIntoRaw kv.1).length = 16
      ∧ sampleTypeKind dict vt = .ok kv.2.kind := by
  intro kv hkv
  refine ⟨rfl, by simp [traceCountIdIntoRaw, u64be, u64le], ?_⟩
  rcases buildEventsGo_kinds dict vt th comm gen tss ctr [] evs h kv hkv with h1 | h2
  · simp at h1
  · exact h2

/-- Witness for the corrected C1 at a concrete ingestion run. -/
theorem c1_amended_event_key_layout_witness :
    traceCountIdIntoRaw ⟨1720000000, 7⟩ = u64be 1720000000 ++ u64le 7
    ∧ (traceCountIdIntoRaw ⟨1720000000, 7⟩).length = 16
    ∧ sampleTypeKind c1Dict ⟨1, 2⟩ = .ok SampleKind.onCPU :=
  c1_amended_event_key_layout c1Dict ⟨1, 2⟩ 99
    (.error (.invalidArgument "empty list of attribute indices"))
    (fun _ => 7) [1720000000000000000] 0
    [(⟨1720000000, 7⟩, ⟨1720000000, 99, 1, "", none, none, .onCPU⟩)]
    (by rfl) (⟨1720000000, 7⟩, ⟨1720000000, 99, 1, "", none, none, .onCPU⟩)
    (by simp)

-- ---------- C7 ----------

/-- Claim C7 is false as stated: ingesting a further location that
enqueues a write for a `FrameId` already present in `stack_frames` does
not leave the stored metadata unchanged — the committed batch `put`
replaces it. -/
theorem c7_stack_frames_overwritten :
    (ingestLocations c7Dict c7St).1 = .ok [⟨c7Key, .regular .python⟩]
    ∧ tblLookup c7St.stack_frames c7Key = some c7Old
    ∧ tblLookup (ingestLocations c7Dict c7St).2.stack_frames c7Key = some c7New
    ∧ c7New ≠ c7Old := by
  refine ⟨by rfl, by rfl, by rfl, by decide⟩

/-- Claim C7 (corrected): `stack_frames` indeed has no merge operator, but
batched inserts are plain replacing `put`s: after a commit the stored
value under a key is the last value enqueued for it in the batch (or the
previous value when the batch holds none) — last write wins, not first. -/
theorem c7_amended_batch_put_replaces :
    stackFramesMergeOp = .default
    ∧ ∀ (batch : List (FrameId × FrameMetaData)) (t : Tbl FrameId FrameMetaData)
        (k : FrameId),
        tblLookup (commitBatch batch t) k =
          match batch.reverse.find? (fun x => decide (x.1 = k)) with
          | some kv => some kv.2
          | none => tblLookup t k := by
  refine ⟨rfl, fun batch => ?_⟩
  induction batch with
  | nil => intro t k; rfl
  | cons b rest ih =>
    intro t k
    have hstep : commitBatch (b :: rest) t = commitBatch rest (tblInsert t b.1 b.2) := rfl
    rw [hstep, ih]
    rw [List.reverse_cons, List.find?_append]
    cases hfind : rest.reverse.find? (fun x => decide (x.1 = k)) with
    | some kv => simp [Option.orElse]
    | none =>
      simp only [Option.orElse, Option.none_orElse]
      rw [tblLookup_insert]
      cases hk : (b.1 == k) with
      | true =>
        have : b.1 = k := by simpa using hk
        simp [List.find?, this]
      | false =>
        have : ¬ b.1 = k := by simpa using hk
        simp [List.find?, this]

-- ---------- C2 ----------

/-- Claim C2 is false as stated: a request rejected with InvalidArgument
(an unknown frame kind in its second location) still persists state from
the request — the `executables` insert made for its first location is a
direct write, not part of any batch. -/
theorem c2_rejected_request_persists_state :
    (exportRequest c2Req (fun _ => 7) 0 emptyDb).1
      = .error (.invalidArgument "unsupported frame kind: bogus")
    ∧ (exportRequest c2Req (fun _ => 7) 0 emptyDb).2.executables
      = [(cexFid, ⟨none, some "libfoo.so", .notAttempted⟩)]
    ∧ (exportRequest c2Req (fun _ => 7) 0 emptyDb).2 ≠ emptyDb := by
  refine ⟨by rfl, by rfl, by decide⟩

/-- Claim C2 (corrected): only the batched writes are rolled back on
failure. A failing Pass 1 never commits its `stack_frames` batch (and
touches neither `trace_events` nor `stack_traces`), and a failing
`process_sample` never commits its `trace_events` batch (and touches
neither `stack_frames` nor `executables`); but direct inserts — the
`executables` upserts of Pass 1 and the `stack_traces` insert of
`process_sample` — persist even when the request is rejected. -/
theorem c2_amended_no_batch_commit_on_failure :
    (∀ (dic : PbDict) (st : DbState) (e : IngestErr),
        (ingestLocations dic st).1 = .error e →
        (ingestLocations dic st).2.stack_frames = st.stack_frames
        ∧ (ingestLocations dic st).2.trace_events = st.trace_events
        ∧ (ingestLocations dic st).2.stack_traces = st.stack_traces)
    ∧ (∀ (dict : PbDict) (vt : PbValueType) (sample : PbSample)
        (fl : List Frame) (gen : Nat → Nat) (ctr now : Nat) (st : DbState)
        (e : IngestErr),
        (processSample dict vt sample fl gen ctr now st).1 = .error e →
        (processSample dict vt sample fl gen ctr now st).2.1.trace_events = st.trace_events
        ∧ (processSample dict vt sample fl gen ctr now st).2.1.stack_frames = st.stack_frames
        ∧ (processSample dict vt sample fl gen ctr now st).2.1.executables = st.executables) := by
  constructor
  · intro dic st e h
    have hp := ingestLocLoop_preserves dic dic.location_table st [] []
    unfold ingestLocations at h ⊢
    rcases hl : ingestLocLoop dic st [] [] dic.location_table with ⟨res, st'⟩
    rw [hl] at h hp
    cases res with
    | error e' => simpa using hp
    | ok out => simp at h
  · intro dict vt sample fl gen ctr now st e h
    simp only [processSample] at h ⊢
    split at h
    · exact ⟨rfl, rfl, rfl⟩
    · simp at h

/-- Witness for the corrected C2: the rejected `c2Dict` Pass 1 leaves the
batched tables untouched, and a `process_sample` whose sample-type index
is negative fails without committing its event batch. -/
theorem c2_amended_no_batch_commit_on_failure_witness :
    ((ingestLocations c2Dict emptyDb).2.stack_frames = emptyDb.stack_frames
      ∧ (ingestLocations c2Dict emptyDb).2.trace_events = emptyDb.trace_events
      ∧ (ingestLocations c2Dict emptyDb).2.stack_traces = emptyDb.stack_traces)
    ∧ ((processSample c1Dict ⟨-1, 2⟩ ⟨0, 0, [], [5]⟩ [] (fun _ => 7) 0 0 emptyDb).1
          = .error .unwrapNone
      → (processSample c1Dict ⟨-1, 2⟩ ⟨0, 0, [], [5]⟩ [] (fun _ => 7) 0 0 emptyDb).2.1.trace_events
          = emptyDb.trace_events) :=
  ⟨c2_amended_no_batch_commit_on_failure.1 c2Dict emptyDb
    (.invalidArgument "unsupported frame kind: bogus") (by rfl),
   fun h => (c2_amended_no_batch_commit_on_failure.2 c1Dict ⟨-1, 2⟩ ⟨0, 0, [], [5]⟩
    [] (fun _ => 7) 0 0 emptyDb .unwrapNone h).1⟩

-- ---------- C4: interval tree correctness ----------

namespace rkyvtree

/-- An empty segment filters to nothing. -/
theorem segFilter_zero {V : Type} (data : List (Node V)) (p s : Nat) :
    segFilter data p s 0 = 0 := by
  simp [segFilter]

/-- A segment whose elements all fail the containment test filters to
nothing. -/
theorem segFilter_eq_zero {V : Type} (data : List (Node V)) (p s l : Nat)
    (h : ∀ x ∈ (data.drop s).take l, containsB p x.element = false) :
    segFilter data p s l = 0 := by
  simp only [segFilter, Multiset.coe_eq_zero]
  rw [List.filter_eq_nil_iff]
  intro e he
  rcases List.mem_map.1 he with ⟨x, hx, rfl⟩
  simp [h x hx]

/-- The segment decomposition at the midpoint node. -/
theorem seg_split {V : Type} (data : List (Node V)) (s l : Nat) (nd : Node V)
    (rest : List (Node V)) (hl : 0 < l)
    (hdrop : data.drop (s + l / 2) = nd :: rest) :
    (data.drop s).take l
      = (data.drop s).take (l / 2)
        ++ nd :: (data.drop (s + l / 2 + 1)).take (l - l / 2 - 1) := by
  have h1 : (data.drop s).take l
      = (data.drop s).take (l / 2) ++ ((data.drop s).drop (l / 2)).take (l - l / 2) := by
    rw [← List.take_add]
    congr 1
    omega
  rw [h1, List.drop_drop, hdrop]
  have h2 : l - l / 2 = (l - l / 2 - 1) + 1 := by omega
  rw [h2, List.take_succ_cons]
  have h3 : rest = data.drop (s + l / 2 + 1) := by
    have := congrArg List.tail hdrop
    simpa [List.tail_drop] using this.symm
  rw [h3]
  have h4 : l - l / 2 - 1 + 1 - 1 = l - l / 2 - 1 := by omega
  rw [h4]

/-- The segment filter splits along the midpoint decomposition. -/
theorem segFilter_split {V : Type} (data : List (Node V)) (p : Nat) (s l : Nat)
    (nd : Node V) (rest : List (Node V)) (hl : 0 < l)
    (hdrop : data.drop (s + l / 2) = nd :: rest) :
    segFilter data p s l
      = (if containsB p nd.element then ({nd.element} : Multiset (Element V)) else 0)
        + segFilter data p s (l / 2)
        + segFilter data p (s + l / 2 + 1) (l - l / 2 - 1) := by
  unfold segFilter
  rw [seg_split data s l nd rest hl hdrop]
  rw [List.map_append, List.filter_append, List.map_cons, List.filter_cons]
  rw [← Multiset.coe_add]
  by_cases hc : containsB p nd.element
  · simp only [hc, if_true]
    rw [← Multiset.cons_coe, ← Multiset.singleton_add]
    abel
  · simp only [hc, Bool.false_eq_true, if_false]
    abel

end rkyvtree

namespace rkyvtree

/-- Measure of a stack entry on top. -/
theorem todoMeasure_cons (s a : Nat) (t : List (Nat × Nat)) :
    todoMeasure ((s, a) :: t) = 2 * a + 1 + todoMeasure t := by
  simp [todoMeasure]

/-- The query traversal returns exactly the containing elements of the
segments on its stack (as a multiset), provided the stack segments are
non-empty, in bounds, and `max`-sound, and the array is start-sorted. -/
theorem queryLoop_spec {V : Type} (data : List (Node V)) (p : Nat)
    (hsort : SortedStart data) :
    ∀ (n : Nat) (todo : List (Nat × Nat)), todoMeasure todo ≤ n →
      (∀ sl ∈ todo, 0 < sl.2 ∧ sl.1 + sl.2 ≤ data.length ∧ MaxOK data sl.1 sl.2) →
      (↑(queryLoop data p todo) : Multiset (Element V))
        = (todo.map (fun sl => segFilter data p sl.1 sl.2)).sum := by
  intro n
  induction n with
  | zero =>
    intro todo hm hinv
    cases todo with
    | nil => simp [queryLoop]
    | cons a t =>
      exfalso
      rw [todoMeasure_cons a.1 a.2] at hm
      omega
  | succ n ih =>
    intro todo hm hinv
    cases todo with
    | nil => simp [queryLoop]
    | cons sl todo =>
      obtain ⟨s, l⟩ := sl
      obtain ⟨hl, hlen, hmax⟩ := hinv (s, l) (by simp)
      rw [todoMeasure_cons] at hm
      have hinv' : ∀ x ∈ todo, 0 < x.2 ∧ x.1 + x.2 ≤ data.length ∧ MaxOK data x.1 x.2 :=
        fun x hx => hinv x (by simp [hx])
      dsimp only at hl hlen hmax
      cases hmax with
      | zero => exact absurd hl (by omega)
      | node _ _ nd rest hl' hdrop hub hleft hright =>
      simp only [queryLoop, hdrop]
      have ha : s + l / 2 - s = l / 2 := by omega
      have hb : l + s - (s + l / 2) - 1 = l - l / 2 - 1 := by omega
      rw [ha, hb]
      -- facts about the right sub-segment being start-bounded by the node
      have hrest : data.drop (s + l / 2 + 1) = rest := by
        have := congrArg List.tail hdrop
        simpa [List.tail_drop] using this
      have hpw : List.Pairwise (fun a b : Node V => a.element.start ≤ b.element.start)
          (nd :: rest) := by
        rw [← hdrop]
        exact List.Pairwise.sublist (List.drop_sublist _ _) hsort
      have hrightStart : ∀ x ∈ (data.drop (s + l / 2 + 1)).take (l - l / 2 - 1),
          nd.element.start ≤ x.element.start := by
        intro x hx
        rw [hrest] at hx
        exact List.rel_of_pairwise_cons hpw
          (List.Sublist.mem hx (List.take_sublist _ _))
      by_cases h1 : p < nd.max
      · simp only [if_pos h1]
        by_cases h2 : nd.element.start ≤ p
        · -- descend left, descend right, possibly yield the node
          simp only [if_pos h2]
          have hsplit := segFilter_split data p s l nd rest hl hdrop
          have hT2 : (↑(queryLoop data p
                (if 0 < l - l / 2 - 1 then
                  (s + l / 2 + 1, l - l / 2 - 1) ::
                    (if 0 < l / 2 then (s, l / 2) :: todo else todo)
                 else (if 0 < l / 2 then (s, l / 2) :: todo else todo))) :
                  Multiset (Element V))
              = segFilter data p (s + l / 2 + 1) (l - l / 2 - 1)
                + segFilter data p s (l / 2)
                + (todo.map (fun sl => segFilter data p sl.1 sl.2)).sum := by
            by_cases hb0 : 0 < l - l / 2 - 1 <;> by_cases ha0 : 0 < l / 2
            · simp only [if_pos hb0, if_pos ha0]
              rw [ih _ (by rw [todoMeasure_cons, todoMeasure_cons]; omega)
                (by
                  intro x hx
                  simp only [List.mem_cons] at hx
                  rcases hx with rfl | rfl | hx
                  · exact ⟨show 0 < l - l / 2 - 1 by omega,
                      show s + l / 2 + 1 + (l - l / 2 - 1) ≤ data.length by omega, hright⟩
                  · exact ⟨show 0 < l / 2 by omega,
                      show s + l / 2 ≤ data.length by omega, hleft⟩
                  · exact hinv' x hx)]
              simp [add_assoc]
            · simp only [if_pos hb0, if_neg ha0]
              have hz : l / 2 = 0 := by omega
              rw [ih _ (by rw [todoMeasure_cons]; omega)
                (by
                  intro x hx
                  simp only [List.mem_cons] at hx
                  rcases hx with rfl | hx
                  · exact ⟨show 0 < l - l / 2 - 1 by omega,
                      show s + l / 2 + 1 + (l - l / 2 - 1) ≤ data.length by omega, hright⟩
                  · exact hinv' x hx)]
              rw [hz, segFilter_zero]
              simp [add_assoc]
            · simp only [if_neg hb0, if_pos ha0]
              have hz : l - l / 2 - 1 = 0 := by omega
              rw [ih _ (by rw [todoMeasure_cons]; omega)
                (by
                  intro x hx
                  simp only [List.mem_cons] at hx
                  rcases hx with rfl | hx
                  · exact ⟨show 0 < l / 2 by omega,
                      show s + l / 2 ≤ data.length by omega, hleft⟩
                  · exact hinv' x hx)]
              rw [hz, segFilter_zero]
              simp [add_assoc]
            · simp only [if_neg hb0, if_neg ha0]
              have hz1 : l / 2 = 0 := by omega
              have hz2 : l - l / 2 - 1 = 0 := by omega
              rw [ih _ (by omega) hinv', hz2, hz1, segFilter_zero, segFilter_zero]
              simp
          by_cases h3 : p < nd.element.stop
          · simp only [if_pos h3]
            have hcont : containsB p nd.element = true := by
              simp [containsB]
              omega
            simp only [List.map_cons, List.sum_cons]
            try dsimp only
            rw [hsplit, hcont]
            rw [← Multiset.cons_coe, ← Multiset.singleton_add, hT2]
            simp only [if_true]
            abel
          · simp only [if_neg h3]
            have hcont : containsB p nd.element = false := by
              simp [containsB]
              omega
            simp only [List.map_cons, List.sum_cons]
            try dsimp only
            rw [hsplit, hcont, hT2]
            simp only [Bool.false_eq_true, if_false]
            abel
        · -- point left of the node's start: only the left half can match
          simp only [if_neg h2]
          have hsplit := segFilter_split data p s l nd rest hl hdrop
          have hcont : containsB p nd.element = false := by
            simp [containsB]
            omega
          have hrightZero : segFilter data p (s + l / 2 + 1) (l - l / 2 - 1) = 0 := by
            apply segFilter_eq_zero
            intro x hx
            have := hrightStart x hx
            simp [containsB]
            omega
          by_cases ha0 : 0 < l / 2
          · simp only [if_pos ha0]
            rw [ih _ (by rw [todoMeasure_cons]; omega)
              (by
                intro x hx
                simp only [List.mem_cons] at hx
                rcases hx with rfl | hx
                · exact ⟨show 0 < l / 2 by omega,
                    show s + l / 2 ≤ data.length by omega, hleft⟩
                · exact hinv' x hx)]
            simp only [List.map_cons, List.sum_cons]
            try dsimp only
            rw [hsplit, hcont, hrightZero]
            simp only [Bool.false_eq_true, if_false]
            abel
          · simp only [if_neg ha0]
            have hz : l / 2 = 0 := by omega
            rw [ih _ (by omega) hinv']
            simp only [List.map_cons, List.sum_cons]
            try dsimp only
            rw [hsplit, hcont, hrightZero, hz, segFilter_zero]
            simp
      · -- point at or past the subtree max: nothing in the segment matches
        simp only [if_neg h1]
        have hzero : segFilter data p s l = 0 := by
          apply segFilter_eq_zero
          intro x hx
          have := hub x hx
          simp [containsB]
          omega
        rw [ih _ (by omega) hinv']
        simp only [List.map_cons, List.sum_cons]
        rw [hzero, zero_add]

end rkyvtree

namespace rkyvtree

/-- `MaxOK` only inspects the slice it covers, so it transports along an
embedding of the slice into a larger array at an offset. -/
theorem MaxOK_shift {V : Type} (pre L post : List (Node V)) :
    ∀ {s l : Nat}, MaxOK L s l → s + l ≤ L.length →
      MaxOK (pre ++ (L ++ post)) (pre.length + s) l := by
  intro s l h
  induction h with
  | zero s => intro _; exact .zero _
  | node s l nd rest hl hdrop hub hleft hright ihl ihr =>
    intro hsl
    have hmid : s + l / 2 < L.length := by omega
    have hdrop' : (pre ++ (L ++ post)).drop (pre.length + s + l / 2)
        = nd :: (rest ++ post) := by
      have h1 : pre.length + s + l / 2 = pre.length + (s + l / 2) := by omega
      rw [h1, List.drop_append, List.drop_append_of_le_length (by omega), hdrop]
      rfl
    have hub' : ∀ x ∈ ((pre ++ (L ++ post)).drop (pre.length + s)).take l,
        x.element.stop ≤ nd.max := by
      intro x hx
      rw [List.drop_append, List.drop_append_of_le_length (by omega),
        List.take_append_of_le_length (by simp [List.length_drop]; omega)] at hx
      exact hub x hx
    refine .node _ _ nd (rest ++ post) hl hdrop' hub' (ihl (by omega)) ?_
    have h2 : pre.length + (s + l / 2 + 1) = pre.length + s + l / 2 + 1 := by omega
    exact h2 ▸ ihr (by omega)

/-- `updateMax` on the empty slice. -/
theorem updateMax_nil {V : Type} : updateMax ([] : List (Node V)) = ([], 0) := by
  simp only [updateMax]

/-- One-step unfolding of `updateMax` on a non-empty slice whose midpoint
is known. -/
theorem updateMax_cons_eq {V : Type} (a : Node V) (t : List (Node V))
    (nd : Node V) (right : List (Node V))
    (heq : (a :: t).drop ((a :: t).length / 2) = nd :: right) :
    updateMax (a :: t) =
      ((updateMax ((a :: t).take ((a :: t).length / 2))).1
          ++ ⟨nd.element,
              if right.isEmpty then
                (if ((a :: t).take ((a :: t).length / 2)).isEmpty then nd.max
                 else Nat.max nd.max (updateMax ((a :: t).take ((a :: t).length / 2))).2)
              else Nat.max
                (if ((a :: t).take ((a :: t).length / 2)).isEmpty then nd.max
                 else Nat.max nd.max (updateMax ((a :: t).take ((a :: t).length / 2))).2)
                (updateMax right).2⟩
          :: (updateMax right).1,
        if right.isEmpty then
          (if ((a :: t).take ((a :: t).length / 2)).isEmpty then nd.max
           else Nat.max nd.max (updateMax ((a :: t).take ((a :: t).length / 2))).2)
        else Nat.max
          (if ((a :: t).take ((a :: t).length / 2)).isEmpty then nd.max
           else Nat.max nd.max (updateMax ((a :: t).take ((a :: t).length / 2))).2)
          (updateMax right).2) := by
  conv_lhs => rw [updateMax]
  split
  · rename_i heq2
    rw [heq2] at heq
    cases heq
  · rename_i nd' right' heq2
    rw [heq2] at heq
    injection heq with h1 h2
    subst h1
    subst h2
    rfl

end rkyvtree

namespace rkyvtree

/-- `update_max` preserves the elements (it only raises `max` fields),
keeps every node's `max` at or above its own `range.end`, bounds every
`range.end` of the slice by the returned maximum, and establishes the
segment-tree `max`-soundness of the result. -/
theorem updateMax_spec {V : Type} :
    ∀ (n : Nat) (ns : List (Node V)), ns.length ≤ n →
      (∀ x ∈ ns, x.element.stop ≤ x.max) →
      ((updateMax ns).1.map (·.element) = ns.map (·.element))
      ∧ (∀ x ∈ (updateMax ns).1, x.element.stop ≤ x.max)
      ∧ (∀ x ∈ (updateMax ns).1, x.element.stop ≤ (updateMax ns).2)
      ∧ MaxOK (updateMax ns).1 0 (updateMax ns).1.length := by
  intro n
  induction n with
  | zero =>
    intro ns hlen hstop
    have hnil : ns = [] := by cases ns <;> simp_all
    subst hnil
    rw [updateMax_nil]
    exact ⟨rfl, by simp, by simp, .zero 0⟩
  | succ n ih =>
    intro ns hlen hstop
    cases ns with
    | nil => rw [updateMax_nil]; exact ⟨rfl, by simp, by simp, .zero 0⟩
    | cons a t =>
      have hlc : (a :: t).length = t.length + 1 := by simp
      obtain ⟨nd, right, heq⟩ :
          ∃ nd right, (a :: t).drop ((a :: t).length / 2) = nd :: right := by
        cases hd : (a :: t).drop ((a :: t).length / 2) with
        | nil =>
          exfalso
          have := congrArg List.length hd
          simp only [List.length_drop, List.length_nil] at this
          omega
        | cons x xs => exact ⟨x, xs, rfl⟩
      have hndmem : nd ∈ a :: t := by
        have hmem : nd ∈ (a :: t).drop ((a :: t).length / 2) := by rw [heq]; simp
        exact List.Sublist.mem hmem (List.drop_sublist _ _)
      have hrightlen : right.length = (a :: t).length - (a :: t).length / 2 - 1 := by
        have := congrArg List.length heq
        simp only [List.length_drop, List.length_cons] at this
        omega
      have htakelen : ((a :: t).take ((a :: t).length / 2)).length
          = (a :: t).length / 2 := by
        simp only [List.length_take]
        omega
      have ihL := ih ((a :: t).take ((a :: t).length / 2))
        (by rw [htakelen]; omega)
        (fun x hx => hstop x (List.Sublist.mem hx (List.take_sublist _ _)))
      have ihR := ih right
        (by omega)
        (fun x hx => hstop x (List.Sublist.mem
          (by rw [heq]; exact List.mem_cons_of_mem _ hx) (List.drop_sublist _ _)))
      rw [updateMax_cons_eq a t nd right heq]
      set resL := updateMax ((a :: t).take ((a :: t).length / 2)) with hresL
      set resR := updateMax right with hresR
      obtain ⟨ihL1, ihL2, ihL3, ihL4⟩ := ihL
      obtain ⟨ihR1, ihR2, ihR3, ihR4⟩ := ihR
      have hL1len : resL.1.length = (a :: t).length / 2 := by
        have h := congrArg List.length ihL1
        simp only [List.length_map] at h
        rw [h]
        exact htakelen
      have hR1len : resR.1.length = right.length := by
        have := congrArg List.length ihR1
        simpa using this
      set M1 := (if ((a :: t).take ((a :: t).length / 2)).isEmpty then nd.max
                 else Nat.max nd.max resL.2) with hM1
      set M2 := (if right.isEmpty then M1 else Nat.max M1 resR.2) with hM2
      have hndM1 : nd.max ≤ M1 := by
        rw [hM1]; split
        · exact le_refl _
        · exact Nat.le_max_left _ _
      have hM1M2 : M1 ≤ M2 := by
        rw [hM2]; split
        · exact le_refl _
        · exact Nat.le_max_left _ _
      have hndM2 : nd.element.stop ≤ M2 :=
        le_trans (hstop nd hndmem) (le_trans hndM1 hM1M2)
      have hLM2 : ∀ x ∈ resL.1, x.element.stop ≤ M2 := by
        intro x hx
        by_cases hemp : ((a :: t).take ((a :: t).length / 2)).isEmpty
        · rw [List.isEmpty_iff] at hemp
          rw [hresL, hemp, updateMax_nil] at hx
          simp at hx
        · have h1 : resL.2 ≤ M1 := by rw [hM1, if_neg hemp]; exact Nat.le_max_right _ _
          exact le_trans (ihL3 x hx) (le_trans h1 hM1M2)
      have hRM2 : ∀ x ∈ resR.1, x.element.stop ≤ M2 := by
        intro x hx
        by_cases hemp : right.isEmpty
        · rw [List.isEmpty_iff] at hemp
          rw [hresR, hemp, updateMax_nil] at hx
          simp at hx
        · have h1 : resR.2 ≤ M2 := by rw [hM2, if_neg hemp]; exact Nat.le_max_right _ _
          exact le_trans (ihR3 x hx) h1
      have hall : ∀ x ∈ resL.1 ++ ⟨nd.element, M2⟩ :: resR.1, x.element.stop ≤ M2 := by
        intro x hx
        rcases List.mem_append.1 hx with hx | hx
        · exact hLM2 x hx
        · rcases List.mem_cons.1 hx with rfl | hx
          · exact hndM2
          · exact hRM2 x hx
      have hreslen : (resL.1 ++ ⟨nd.element, M2⟩ :: resR.1).length = (a :: t).length := by
        simp only [List.length_append, List.length_cons, hL1len, hR1len, hrightlen]
        omega
      refine ⟨?_, ?_, ?_, ?_⟩
      · rw [List.map_append, List.map_cons, ihL1, ihR1]
        conv_rhs => rw [← List.take_append_drop ((a :: t).length / 2) (a :: t)]
        rw [heq, List.map_append, List.map_cons]
      · intro x hx
        rcases List.mem_append.1 hx with hx | hx
        · exact ihL2 x hx
        · rcases List.mem_cons.1 hx with rfl | hx
          · exact hndM2
          · exact ihR2 x hx
      · exact hall
      · have hd2 : (resL.1 ++ ⟨nd.element, M2⟩ :: resR.1).drop
            (0 + (resL.1 ++ ⟨nd.element, M2⟩ :: resR.1).length / 2)
            = ⟨nd.element, M2⟩ :: resR.1 := by
          have hx : 0 + (resL.1 ++ ⟨nd.element, M2⟩ :: resR.1).length / 2
              = resL.1.length := by
            rw [hreslen, hL1len]
            omega
          rw [hx]
          exact List.drop_left resL.1 _
        refine .node 0 _ ⟨nd.element, M2⟩ resR.1 (by rw [hreslen]; omega) hd2 ?_ ?_ ?_
        · intro x hx
          rw [List.drop_zero, List.take_length] at hx
          exact hall x hx
        · have hs := MaxOK_shift [] resL.1 (⟨nd.element, M2⟩ :: resR.1) ihL4 (by omega)
          simp only [List.nil_append, List.length_nil, Nat.zero_add] at hs
          have hx : (resL.1 ++ ⟨nd.element, M2⟩ :: resR.1).length / 2 = resL.1.length := by
            rw [hreslen, hL1len]
          exact hx ▸ hs
        · have hs := MaxOK_shift (resL.1 ++ [⟨nd.element, M2⟩]) resR.1 [] ihR4 (by omega)
          simp only [List.append_assoc, List.singleton_append, List.append_nil,
            List.length_append, List.length_cons, List.length_nil, Nat.zero_add] at hs
          have hx1 : 0 + (resL.1 ++ ⟨nd.element, M2⟩ :: resR.1).length / 2 + 1
              = resL.1.length + 1 := by
            rw [hreslen]
            omega
          have hx2 : (resL.1 ++ ⟨nd.element, M2⟩ :: resR.1).length
              - (resL.1 ++ ⟨nd.element, M2⟩ :: resR.1).length / 2 - 1
              = resR.1.length := by
            rw [hreslen]
            omega
          rw [hx1, hx2]
          exact hs

end rkyvtree

namespace rkyvtree

/-- `from_iter` builds an array whose elements are a permutation of the
input, sorted by `range.start`, with sound subtree maxima. -/
theorem fromIter_spec {V : Type} (l : List (Element V)) :
    ((fromIter l).map (·.element)).Perm l
    ∧ SortedStart (fromIter l)
    ∧ MaxOK (fromIter l) 0 (fromIter l).length := by
  unfold fromIter
  set nodes := (l.map mkNode).mergeSort
    (fun a b => decide (a.element.start ≤ b.element.start)) with hnodes
  have hperm : nodes.Perm (l.map mkNode) := List.mergeSort_perm _ _
  have hmapel : (l.map mkNode).map (·.element) = l := by
    rw [List.map_map]
    have hcomp : ((fun x : Node V => x.element) ∘ mkNode) = fun e : Element V => e := by
      funext e
      rfl
    rw [hcomp, List.map_id']
  have hpermel : (nodes.map (·.element)).Perm l := by
    have h1 := hperm.map (·.element)
    rw [hmapel] at h1
    exact h1
  have hsorted : SortedStart nodes := by
    have hs := @List.sorted_mergeSort (Node V)
      (fun a b : Node V => decide (a.element.start ≤ b.element.start))
      (fun a b c hab hbc => by
        simp only [decide_eq_true_eq] at *
        omega)
      (fun a b => by
        simp only [Bool.or_eq_true, decide_eq_true_eq]
        omega)
      (l.map mkNode)
    exact List.Pairwise.imp (fun h => by simpa using h) hs
  have hstop : ∀ x ∈ nodes, x.element.stop ≤ x.max := by
    intro x hx
    have hmem : x ∈ l.map mkNode := hperm.mem_iff.1 hx
    rcases List.mem_map.1 hmem with ⟨e, _, rfl⟩
    simp [mkNode]
  by_cases hemp : nodes.isEmpty
  · rw [if_pos hemp]
    rw [List.isEmpty_iff] at hemp
    rw [hemp]
    rw [hemp] at hpermel
    exact ⟨by simpa using hpermel, List.Pairwise.nil, .zero 0⟩
  · rw [if_neg hemp]
    obtain ⟨h1, _, _, h4⟩ := updateMax_spec nodes.length nodes (le_refl _) hstop
    refine ⟨?_, ?_, h4⟩
    · rw [h1]
      exact hpermel
    · have hpw : List.Pairwise (fun a b : Element V => a.start ≤ b.start)
          ((updateMax nodes).1.map (·.element)) := by
        rw [h1]
        exact List.pairwise_map.2 hsorted
      exact (@List.pairwise_map (Node V) (Element V) (fun x => x.element)
        (fun a b : Element V => a.start ≤ b.start) (updateMax nodes).1).1 hpw

end rkyvtree


/-- Claim C4 (confirmed): for every finite collection of `(range, value)`
elements and every point `p`, `query_point(p)` on the built tree yields
exactly the elements whose half-open range contains `p`
(`start ≤ p < end`), each exactly once (as multisets), independently of
the order in which the elements were supplied to the builder. -/
theorem c4_query_point_exact {V : Type} (l : List (rkyvtree.Element V)) (p : Nat) :
    ((rkyvtree.queryPoint (rkyvtree.fromIter l) p : List (rkyvtree.Element V)) :
        Multiset (rkyvtree.Element V))
      = ↑(l.filter (rkyvtree.containsB p))
    ∧ ∀ l2 : List (rkyvtree.Element V), l.Perm l2 →
        ((rkyvtree.queryPoint (rkyvtree.fromIter l) p : List (rkyvtree.Element V)) :
            Multiset (rkyvtree.Element V))
          = ↑(rkyvtree.queryPoint (rkyvtree.fromIter l2) p) := by
  have main : ∀ l' : List (rkyvtree.Element V),
      ((rkyvtree.queryPoint (rkyvtree.fromIter l') p : List (rkyvtree.Element V)) :
          Multiset (rkyvtree.Element V))
        = ↑(l'.filter (rkyvtree.containsB p)) := by
    intro l'
    obtain ⟨hperm, hsort, hmax⟩ := rkyvtree.fromIter_spec l'
    unfold rkyvtree.queryPoint
    by_cases hemp : (rkyvtree.fromIter l').isEmpty
    · rw [if_pos hemp]
      rw [List.isEmpty_iff] at hemp
      rw [hemp] at hperm
      simp only [List.map_nil] at hperm
      have hl : l' = [] := hperm.symm.eq_nil
      rw [hl]
      simp [rkyvtree.queryLoop]
    · rw [if_neg hemp]
      have hne : rkyvtree.fromIter l' ≠ [] := by
        simpa [List.isEmpty_iff] using hemp
      have hlen : 0 < (rkyvtree.fromIter l').length := List.length_pos.2 hne
      have hq := rkyvtree.queryLoop_spec (rkyvtree.fromIter l') p hsort
        (rkyvtree.todoMeasure [(0, (rkyvtree.fromIter l').length)])
        [(0, (rkyvtree.fromIter l').length)] (le_refl _)
        (by
          intro x hx
          simp only [List.mem_singleton] at hx
          subst hx
          exact ⟨hlen, by omega, hmax⟩)
      rw [hq]
      simp only [List.map_cons, List.map_nil, List.sum_cons, List.sum_nil, add_zero]
      unfold rkyvtree.segFilter
      rw [List.drop_zero, List.take_length]
      exact Multiset.coe_eq_coe.2 (List.Perm.filter _ hperm)
  exact ⟨main l, fun l2 hp => by
    rw [main l, main l2]
    exact Multiset.coe_eq_coe.2 (List.Perm.filter _ hp)⟩

/-- Witness for C4 at a concrete element list, point and permutation. -/
theorem c4_query_point_exact_witness :
    ((rkyvtree.queryPoint
        (rkyvtree.fromIter [⟨1, 5, (10 : Nat)⟩, ⟨3, 8, 20⟩, ⟨0, 2, 30⟩, ⟨5, 6, 40⟩]) 4 :
          List (rkyvtree.Element Nat)) : Multiset (rkyvtree.Element Nat))
      = ↑([⟨1, 5, (10 : Nat)⟩, ⟨3, 8, 20⟩, ⟨0, 2, 30⟩, ⟨5, 6, 40⟩].filter
          (rkyvtree.containsB 4))
    ∧ ([⟨1, 5, (10 : Nat)⟩, ⟨3, 8, 20⟩, ⟨0, 2, 30⟩, ⟨5, 6, 40⟩] :
        List (rkyvtree.Element Nat)).Perm
        [⟨5, 6, (40 : Nat)⟩, ⟨0, 2, 30⟩, ⟨3, 8, 20⟩, ⟨1, 5, 10⟩]
    ∧ ((rkyvtree.queryPoint
        (rkyvtree.fromIter [⟨1, 5, (10 : Nat)⟩, ⟨3, 8, 20⟩, ⟨0, 2, 30⟩, ⟨5, 6, 40⟩]) 4 :
          List (rkyvtree.Element Nat)) : Multiset (rkyvtree.Element Nat))
      = ↑(rkyvtree.queryPoint
          (rkyvtree.fromIter [⟨5, 6, (40 : Nat)⟩, ⟨0, 2, 30⟩, ⟨3, 8, 20⟩, ⟨1, 5, 10⟩]) 4) :=
  ⟨(c4_query_point_exact [⟨1, 5, 10⟩, ⟨3, 8, 20⟩, ⟨0, 2, 30⟩, ⟨5, 6, 40⟩] 4).1,
   by decide,
   (c4_query_point_exact [⟨1, 5, 10⟩, ⟨3, 8, 20⟩, ⟨0, 2, 30⟩, ⟨5, 6, 40⟩] 4).2
     [⟨5, 6, 40⟩, ⟨0, 2, 30⟩, ⟨3, 8, 20⟩, ⟨1, 5, 10⟩] (by decide)⟩
